import Mathlib

/-!
Verification development for the expense-tracker chat bot (src/bot.py).

The bot is a per-user dialogue state machine (amount → category →
subcategory → optional label) that persists expense rows in a table
`expenses(id SERIAL, user_id, category, subcategory, amount NUMERIC(10,2),
label, created_at)` and offers summary / undo / clear commands.

This file gives a shallow embedding of the handlers in `bot.py`:
Python `Decimal` string parsing, the conversation handlers
(`get_amount`, `get_category`, `get_subcategory`, `get_label`,
`save_expense`), the command handlers (`summary`, `undo`, `restart`,
`menu`), and the persistence layer (an in-memory ledger standing for the
`expenses` table, with the NUMERIC(10,2) rounding and the SERIAL id).
Decimal amounts are embedded exactly, as an integer coefficient together
with a decimal scale; stored NUMERIC(10,2) amounts are embedded as
integer hundredths. Python integers and the SERIAL id are unbounded, so
they are embedded as Nat / Int.
-/

namespace ExpenseBot

/-! ## Characters and strings

Helpers mirroring the Python string primitives used by the bot:
`str.strip`, `str.lower`, `str.title`, `str.startswith`. They are stated
over the ASCII range, which covers every string the bot itself compares
against. -/

def isAsciiDigit (c : Char) : Bool := 48 ≤ c.toNat && c.toNat ≤ 57

def digitVal (c : Char) : Nat := c.toNat - 48

def digitsToNat (cs : List Char) : Nat := cs.foldl (fun a c => 10 * a + digitVal c) 0

/-- Whitespace characters stripped by Python `str.strip()` and by the
`Decimal` constructor (space, tab, newline, carriage return, vertical
tab, form feed). -/
def isPyWS (c : Char) : Bool :=
  c.toNat = 32 || c.toNat = 9 || c.toNat = 10 || c.toNat = 13 || c.toNat = 11 || c.toNat = 12

def stripWS (cs : List Char) : List Char :=
  ((cs.dropWhile isPyWS).reverse.dropWhile isPyWS).reverse

/-- Python `str.strip()`. -/
def pyStrip (s : String) : String := String.mk (stripWS s.toList)

/-- ASCII lowercasing, as applied by Python `str.lower()` to the ASCII
inputs the bot compares against. -/
def asciiLower (c : Char) : Char :=
  if 65 ≤ c.toNat && c.toNat ≤ 90 then Char.ofNat (c.toNat + 32) else c

/-- Python `str.lower()` (ASCII range). -/
def pyLower (s : String) : String := String.mk (s.toList.map asciiLower)

/-- Python `str.title()` restricted to the single lowercase words the bot
applies it to (the stored categories `"needs"` / `"wants"`), where it
just capitalizes the first letter. -/
def title (s : String) : String :=
  match s.toList with
  | [] => ""
  | c :: cs =>
    String.mk (Char.ofNat (if 97 ≤ c.toNat && c.toNat ≤ 122 then c.toNat - 32 else c.toNat) :: cs)

/-- Python `str.startswith(p)`. -/
def pyStartsWith (s p : String) : Bool := p.toList.isPrefixOf s.toList

/-! ## Python `Decimal` values and string parsing

`get_amount` runs `Decimal(update.message.text)`. Per the CPython
`decimal` documentation, a string value must conform to the decimal
numeric-string grammar

  sign ::= plus | minus
  digits ::= digit digit*
  decimal-part ::= digits point [digits] | [point] digits
  exponent-part ::= indicator [sign] digits
  numeric-value ::= decimal-part [exponent-part] | infinity
  numeric-string ::= [sign] numeric-value | [sign] nan

after leading and trailing whitespace, and underscores throughout, are
removed; the special-value words and the exponent indicator are
case-insensitive. Digits here are embedded as the ASCII digits (the
bot's inputs; CPython additionally permits other Unicode decimal
digits).

A finite value is embedded as `DecVal`: an integer `num` and a decimal
`scale`, denoting num / 10^scale. A positive exponent is folded into
`num`; this preserves the value, and every use the bot makes of the
parsed `Decimal` (the sign test, `quantize`, NUMERIC(10,2) coercion)
depends only on the value. -/

structure DecVal where
  num : Int
  scale : Nat
deriving DecidableEq, Repr

/-- The rational value a `DecVal` denotes (specification-level only). -/
def DecVal.toQ (v : DecVal) : ℚ := (v.num : ℚ) / (10 : ℚ) ^ v.scale

inductive PyDec where
  | finite (v : DecVal)
  | infinity (neg : Bool)
  | nan
deriving DecidableEq, Repr

/-- Optional leading sign; returns (isNegative, rest). -/
def sgnSplit (cs : List Char) : Bool × List Char :=
  if cs.head? = some '-' then (true, cs.tail)
  else if cs.head? = some '+' then (false, cs.tail)
  else (false, cs)

/-- `decimal-part`: plain digits with an optional point. Returns the
(unsigned) coefficient, the number of fractional digits, and the
unconsumed suffix. -/
def parseUDec (cs : List Char) : Option (Nat × Nat × List Char) :=
  let ip := cs.takeWhile isAsciiDigit
  let r1 := cs.dropWhile isAsciiDigit
  if r1.head? = some '.' then
    let r2 := r1.tail
    let fp := r2.takeWhile isAsciiDigit
    let r3 := r2.dropWhile isAsciiDigit
    if ip.isEmpty && fp.isEmpty then none
    else some (digitsToNat (ip ++ fp), fp.length, r3)
  else if ip.isEmpty then none else some (digitsToNat ip, 0, r1)

/-- Optional `exponent-part`. `none` means a malformed exponent;
`some (e, rest)` the parsed exponent (0 when absent). -/
def parseExpOpt (cs : List Char) : Option (Int × List Char) :=
  if cs.head? = some 'e' || cs.head? = some 'E' then
    let neg := (sgnSplit cs.tail).1
    let r2 := (sgnSplit cs.tail).2
    let ds := r2.takeWhile isAsciiDigit
    let r3 := r2.dropWhile isAsciiDigit
    if ds.isEmpty then none
    else some ((if neg then -(digitsToNat ds : Int) else (digitsToNat ds : Int)), r3)
  else some (0, cs)

/-- Fold an exponent into a coefficient/scale pair, value-preservingly. -/
def applyExp (c : Nat) (sc : Nat) (e : Int) : Nat × Nat :=
  if 0 ≤ e then (c * 10 ^ e.toNat, sc) else (c, sc + (-e).toNat)

/-- The `Decimal(string)` constructor: `some` a value on the grammar
above, `none` when the constructor raises `InvalidOperation`. -/
def pyDecParse (s : String) : Option PyDec :=
  let cs := (stripWS s.toList).filter (fun c => c.toNat != 95)
  let neg := (sgnSplit cs).1
  let r := (sgnSplit cs).2
  let low := r.map asciiLower
  if low = "inf".toList || low = "infinity".toList then some (PyDec.infinity neg)
  else if low.take 3 = "nan".toList && (low.drop 3).all isAsciiDigit then some PyDec.nan
  else if low.take 4 = "snan".toList && (low.drop 4).all isAsciiDigit then some PyDec.nan
  else
    match parseUDec r with
    | none => none
    | some (c, sc, r1) =>
      match parseExpOpt r1 with
      | none => none
      | some (e, r2) =>
        if r2.isEmpty then
          some (PyDec.finite ⟨if neg then -((applyExp c sc e).1 : Int) else ((applyExp c sc e).1 : Int),
            (applyExp c sc e).2⟩)
        else none

/-! ## Rounding and money formatting

`_fmt_money(x)` is `f"${x.quantize(Decimal('0.01'))}"`. `quantize`
rounds the value to exponent −2 with the default context rounding
ROUND_HALF_EVEN and raises `InvalidOperation` when the resulting
coefficient would be longer than the context precision of 28 digits; a
finite `Decimal` with exponent −2 prints as its integer part, a point,
and exactly two fractional digits. -/

/-- Round `t / d` (with `d > 0`) to the nearest integer, ties to even
(decimal ROUND_HALF_EVEN). -/
def divHalfEven (t d : Int) : Int :=
  let q := t.fdiv d
  let r := t - q * d
  if 2 * r < d then q
  else if d < 2 * r then q + 1
  else if q % 2 = 0 then q else q + 1

/-- Round `t / d` (with `d > 0`) to the nearest integer, ties away from
zero (the rounding PostgreSQL applies when coercing into NUMERIC(10,2)). -/
def divHalfAway (t d : Int) : Int :=
  let q := t.fdiv d
  let r := t - q * d
  if 2 * r < d then q
  else if d < 2 * r then q + 1
  else if 0 ≤ t then q + 1 else q

/-- The quantized coefficient of a `DecVal` at exponent −2: its value in
hundredths, rounded half-to-even. -/
def centsHalfEven (v : DecVal) : Int := divHalfEven (v.num * 100) (10 ^ v.scale)

/-- The NUMERIC(10,2) coercion of a `DecVal`: its value in hundredths,
rounded half away from zero. -/
def centsHalfAway (v : DecVal) : Int := divHalfAway (v.num * 100) (10 ^ v.scale)

/-- Two-digit zero-padded rendering of a value below 100. -/
def pad2 (m : Nat) : String := (if m < 10 then "0" else "") ++ toString m

/-- String form of a finite `Decimal` with exponent −2 (coefficient
`c.natAbs`, sign of `c`). -/
def centsRender (c : Int) : String :=
  let n := c.natAbs
  (if c < 0 then "-" else "") ++ toString (n / 100) ++ "." ++ pad2 (n % 100)

/-- `_fmt_money` on a parsed `Decimal`: `none` models the
`InvalidOperation` raised by `quantize` when the quantized coefficient
exceeds the 28-digit context precision. -/
def fmt_money (v : DecVal) : Option String :=
  let c := centsHalfEven v
  if 10 ^ 28 ≤ c.natAbs then none else some ("$" ++ centsRender c)

/-- `_fmt_money` on a `Decimal` that already has exponent −2 (a value
read back from the NUMERIC(10,2) column, or a sum of such values), given
as its integer number of hundredths. `quantize` leaves the coefficient
unchanged but still enforces the 28-digit precision. -/
def fmt_cents (c : Int) : Option String :=
  if 10 ^ 28 ≤ c.natAbs then none else some ("$" ++ centsRender c)

/-! ## Constants (bot.py lines 62-78) -/

def NEEDS_TARGET : DecVal := ⟨500, 0⟩

def WANTS_TARGET : DecVal := ⟨300, 0⟩

def NEEDS_SUBCATS : List String :=
  ["Food", "Subscription", "Transport", "Groceries", "Misc Needs"]

def WANTS_SUBCATS : List String :=
  ["Dining Out", "Alcohol", "Dates", "Gifts", "Clothes", "Misc Wants"]

/-- `NEEDS_SUBCATS if cat == "needs" else WANTS_SUBCATS` — the
subcategory list the handlers select for a stored category. -/
def validSubcats (cat : String) : List String :=
  if cat = "needs" then NEEDS_SUBCATS else WANTS_SUBCATS

def MENU_TEXT : String :=
  "Here’s what I can do:\n/start → log an expense\n/needs → see Needs totals\n/wants → see Wants totals\n/undo → undo last entry\n/restart → clear all your data"

/-! ## The ledger store (the `expenses` table)

One row per expense entry. `amountCents` is the NUMERIC(10,2) `amount`
column, embedded as an integer number of hundredths; `id` is the SERIAL
primary key, modelled by `nextId` which only ever grows. `created_at`
plays no role in any handler (ordering is by `id`), so it is omitted. -/

structure Entry where
  id : Nat
  user_id : Nat
  category : String
  subcategory : String
  amountCents : Int
  label : Option String
deriving DecidableEq, Repr

structure LedgerState where
  entries : List Entry
  nextId : Nat
deriving DecidableEq, Repr

/-- `INSERT INTO expenses (user_id, category, subcategory, amount, label)`.
`avail = false` models `StorageUnavailable` (the connection or the
execute raises); `none` is also returned when NUMERIC(10,2) overflows
(PostgreSQL raises `numeric field overflow` for absolute values of 10^8
or more). On success the row gets the next SERIAL id. -/
def dbInsertExpense (avail : Bool) (st : LedgerState) (uid : Nat)
    (cat subcat : String) (amt : DecVal) (label : Option String) : Option LedgerState :=
  if !avail then none
  else
    let cents := centsHalfAway amt
    if 10 ^ 10 ≤ cents.natAbs then none
    else some ⟨st.entries ++ [⟨st.nextId, uid, cat, subcat, cents, label⟩], st.nextId + 1⟩

/-! ## Conversation session state

`context.user_data` is a per-user dict; the handlers store the keys
`"amount"`, `"cat"`, `"subcat"`, `"label"` in it. The conversation
states are the constants `AMOUNT, CATEGORY, SUBCATEGORY, LABEL`;
`ConversationHandler.END` ends the conversation. An unhandled exception
in a handler leaves the conversation state unchanged (the framework
logs the error and does not update the state). -/

structure UserData where
  amount : Option PyDec
  cat : Option String
  subcat : Option String
  label : Option String
deriving DecidableEq, Repr

/-- `context.user_data` with no keys set. -/
def emptyUD : UserData := ⟨none, none, none, none⟩

inductive ConvState where
  | AMOUNT
  | CATEGORY
  | SUBCATEGORY
  | LABEL
deriving DecidableEq, Repr

/-- What a handler invocation does to the conversation: return a next
state, return `ConversationHandler.END`, or raise (leaving the
conversation state unchanged). -/
inductive Outcome where
  | ret (s : ConvState)
  | endConv
  | raised
deriving DecidableEq, Repr

/-- Result of a handler that does not touch the store. -/
structure AmountRes where
  ud : UserData
  replies : List String
  out : Outcome
deriving DecidableEq, Repr

/-- Result of a handler that may touch the store. -/
structure HandlerRes where
  ud : UserData
  store : LedgerState
  replies : List String
  out : Outcome
deriving DecidableEq, Repr

/-! ## Conversation handlers (bot.py lines 93-181) -/

/-- `get_amount`: `Decimal(text)`, reject non-positive (a comparison
with NaN raises `InvalidOperation` inside the `try`, so NaN is also
rejected); on success store the amount and prompt with the formatted
amount. When the parsed value is +Infinity (or too large to quantize)
the sign test passes, the amount is stored, and `_fmt_money` then
raises outside the `try`. -/
def get_amount (s : String) (ud : UserData) : AmountRes :=
  match pyDecParse s with
  | none => ⟨ud, ["Please enter a valid positive number."], Outcome.ret ConvState.AMOUNT⟩
  | some PyDec.nan => ⟨ud, ["Please enter a valid positive number."], Outcome.ret ConvState.AMOUNT⟩
  | some (PyDec.infinity true) =>
    ⟨ud, ["Please enter a valid positive number."], Outcome.ret ConvState.AMOUNT⟩
  | some (PyDec.infinity false) =>
    ⟨{ ud with amount := some (PyDec.infinity false) }, [], Outcome.raised⟩
  | some (PyDec.finite v) =>
    if v.num ≤ 0 then ⟨ud, ["Please enter a valid positive number."], Outcome.ret ConvState.AMOUNT⟩
    else
      match fmt_money v with
      | none => ⟨{ ud with amount := some (PyDec.finite v) }, [], Outcome.raised⟩
      | some m =>
        ⟨{ ud with amount := some (PyDec.finite v) },
         ["Amount noted: " ++ m ++ ".\nIs this a Need or a Want?"],
         Outcome.ret ConvState.CATEGORY⟩

/-- `get_category`: lowercase the stripped text, require `needs` or
`wants`. -/
def get_category (s : String) (ud : UserData) : AmountRes :=
  let choice := pyLower (pyStrip s)
  if !(choice == "needs" || choice == "wants") then
    ⟨ud, ["Please choose Needs or Wants."], Outcome.ret ConvState.CATEGORY⟩
  else
    ⟨{ ud with cat := some choice }, ["Pick a subcategory:"], Outcome.ret ConvState.SUBCATEGORY⟩

/-- `save_expense`: read the accumulated fields (a missing key raises
`KeyError`), insert the row, send the confirmation, then clear the
session. A raise at any point skips the rest: a failed insert leaves
the session fields and the store untouched; a failed confirmation
formatting leaves the inserted row and the session fields. -/
def save_expense (avail : Bool) (uid : Nat) (ud : UserData) (st : LedgerState) : HandlerRes :=
  match ud.cat, ud.subcat, ud.amount with
  | some cat, some subcat, some (PyDec.finite amt) =>
    (match dbInsertExpense avail st uid cat subcat amt ud.label with
     | none => ⟨ud, st, [], Outcome.raised⟩
     | some st' =>
       match fmt_money amt with
       | none => ⟨ud, st', [], Outcome.raised⟩
       | some m =>
         ⟨emptyUD, st',
          ["Logged " ++ m ++ " to " ++ title cat ++ " → " ++ subcat ++
            (match ud.label with
             | none => ""
             | some l => if l = "" then "" else " (" ++ l ++ ")") ++ "."],
          Outcome.endConv⟩)
  | some _, some _, some _ => ⟨ud, st, [], Outcome.raised⟩
  | _, _, _ => ⟨ud, st, [], Outcome.raised⟩

/-- `get_subcategory`: reads `user_data["cat"]` and `user_data["amount"]`
first (KeyError if missing), handles the back button, validates the
choice against the list for the stored category, stores it, and either
asks for a Misc label or saves immediately. -/
def get_subcategory (avail : Bool) (uid : Nat) (s : String) (ud : UserData)
    (st : LedgerState) : HandlerRes :=
  let sub := pyStrip s
  match ud.cat, ud.amount with
  | some cat, some _ =>
    if sub = "⬅ Back" then
      ⟨ud, st, ["Choose again: Needs or Wants?"], Outcome.ret ConvState.CATEGORY⟩
    else
      if sub ∉ validSubcats cat then
        ⟨ud, st, ["Please pick from the buttons."], Outcome.ret ConvState.SUBCATEGORY⟩
      else
        let ud1 := { ud with subcat := some sub }
        if pyStartsWith sub "Misc" then
          ⟨ud1, st, ["Enter a short label for this Misc item:"], Outcome.ret ConvState.LABEL⟩
        else
          let r := save_expense avail uid ud1 st
          ⟨r.ud, r.store, r.replies, if r.out = Outcome.raised then Outcome.raised else Outcome.endConv⟩
  | _, _ => ⟨ud, st, [], Outcome.raised⟩

/-- `get_label`: strip the text, store it as the label, save. -/
def get_label (avail : Bool) (uid : Nat) (s : String) (ud : UserData)
    (st : LedgerState) : HandlerRes :=
  let ud1 := { ud with label := some (pyStrip s) }
  let r := save_expense avail uid ud1 st
  ⟨r.ud, r.store, r.replies, if r.out = Outcome.raised then Outcome.raised else Outcome.endConv⟩

/-! ## Command handlers (bot.py lines 184-227) -/

/-- Entries of one user, `WHERE user_id=%s`. -/
def userEntries (st : LedgerState) (uid : Nat) : List Entry :=
  st.entries.filter (fun e => e.user_id == uid)

/-- `SELECT ... WHERE user_id=%s AND category=%s`. -/
def matchingEntries (st : LedgerState) (uid : Nat) (cat : String) : List Entry :=
  st.entries.filter (fun e => e.user_id == uid && e.category == cat)

/-- `SUM(amount)` for one subcategory group, in hundredths (exact: SQL
SUM over NUMERIC is exact). -/
def groupCents (st : LedgerState) (uid : Nat) (cat sub : String) : Int :=
  (((matchingEntries st uid cat).filter (fun e => e.subcategory == sub)).map
    (fun e => e.amountCents)).sum

/-- The result set of
`SELECT subcategory, SUM(amount) ... GROUP BY subcategory`, in one
concrete row order (the query has no ORDER BY, so SQL fixes the rows of
the result but not their order; see `SummaryResultOK` for the
order-independent contract). -/
def summarize (st : LedgerState) (uid : Nat) (cat : String) : List (String × Int) :=
  ((matchingEntries st uid cat).map (fun e => e.subcategory)).dedup.map
    (fun sub => (sub, groupCents st uid cat sub))

/-- What SQL guarantees about the result of the GROUP BY query: one row
per distinct subcategory among the matching rows, each carrying the
exact group sum — in an unspecified order. -/
def SummaryResultOK (st : LedgerState) (uid : Nat) (cat : String)
    (res : List (String × Int)) : Prop :=
  (res.map Prod.fst).Nodup ∧
  (∀ p ∈ res, p.1 ∈ (matchingEntries st uid cat).map (fun e => e.subcategory) ∧
    p.2 = groupCents st uid cat p.1) ∧
  (∀ sub ∈ (matchingEntries st uid cat).map (fun e => e.subcategory), sub ∈ res.map Prod.fst)

instance (st : LedgerState) (uid : Nat) (cat : String) (res : List (String × Int)) :
    Decidable (SummaryResultOK st uid cat res) := by
  unfold SummaryResultOK; infer_instance

/-- Render the per-subcategory lines; `none` if `_fmt_money` raises on
some group sum. -/
def summaryLines (res : List (String × Int)) : Option (List String) :=
  res.mapM (fun p => (fmt_cents p.2).map (fun m => "• " ++ p.1 ++ ": " ++ m))

/-- The `summary` command handler, over a given result-row order `res`.
Empty result: "No expenses yet."; otherwise the lines, the total (the
sum of the listed sums) and the target constant for the category. -/
def summaryMsg (cat : String) (res : List (String × Int)) : List String × Bool :=
  if res.isEmpty then (["No expenses yet."], false)
  else
    let total := (res.map Prod.snd).sum
    let target := if cat = "needs" then NEEDS_TARGET else WANTS_TARGET
    match summaryLines res, fmt_cents total, fmt_money target with
    | some lines, some t, some tg =>
      (["📊 " ++ title cat ++ " summary\n" ++ String.intercalate "\n" lines ++
        "\n\nTotal: " ++ t ++ " / " ++ tg], false)
    | _, _, _ => ([], true)

/-- `summary(update, context, cat)`: run the query (raising if storage
is unavailable) and render `summaryMsg` on its rows. -/
def summaryHandler (avail : Bool) (uid : Nat) (cat : String) (st : LedgerState) :
    List String × Bool :=
  if !avail then ([], true)
  else summaryMsg cat (summarize st uid cat)

/-- One comparison step when scanning for the greatest id. -/
def pickStep (acc : Option Entry) (e : Entry) : Option Entry :=
  match acc with
  | none => some e
  | some a => if a.id < e.id then some e else some a

/-- `ORDER BY id DESC LIMIT 1`: the entry with the greatest id (ids are
unique, being the primary key). -/
def pickLatest (l : List Entry) : Option Entry := l.foldl pickStep none

/-- The `undo` command: select the most recent entry of the user, delete
it by id, report it; "Nothing to undo." when there is none. The Bool is
the raised flag. -/
def undo (avail : Bool) (uid : Nat) (st : LedgerState) : LedgerState × List String × Bool :=
  if !avail then (st, [], true)
  else
    match pickLatest (userEntries st uid) with
    | none => (st, ["Nothing to undo."], false)
    | some last =>
      let st' : LedgerState := ⟨st.entries.filter (fun e => !(e.id == last.id)), st.nextId⟩
      match fmt_cents last.amountCents with
      | none => (st', [], true)
      | some m =>
        (st', ["Removed last entry: " ++ m ++ " from " ++ title last.category ++ " → " ++
          last.subcategory ++ "."], false)

/-- The `restart` command: `DELETE FROM expenses WHERE user_id=%s`. -/
def restart (avail : Bool) (uid : Nat) (st : LedgerState) : LedgerState × List String × Bool :=
  if !avail then (st, [], true)
  else (⟨st.entries.filter (fun e => !(e.user_id == uid)), st.nextId⟩,
    ["All your data cleared. ✅"], false)

/-! ## Dispatch (the handler registration in `main`)

A `/start` (re-)enters the conversation at AMOUNT without clearing
`user_data` (`allow_reentry=True`). The per-state message handlers use
`filters.TEXT & ~filters.COMMAND`, so commands always reach their
`CommandHandler` even mid-conversation; free text with no active
conversation falls through to the `menu` handler. -/

inductive Msg where
  | startCmd
  | undoCmd
  | restartCmd
  | needsCmd
  | wantsCmd
  | text (s : String)
deriving DecidableEq, Repr

/-- One user-facing system state: the conversation state (none when no
dialogue is active), the per-user `user_data`, and the `expenses`
table. -/
structure Sys where
  conv : Option ConvState
  ud : UserData
  store : LedgerState
deriving DecidableEq, Repr

def initialSys : Sys := ⟨none, emptyUD, ⟨[], 0⟩⟩

/-- Apply a handler result: update the conversation state per the
returned value, keeping it unchanged when the handler raised. -/
def applyHandler (sys : Sys) (r : HandlerRes) : Sys :=
  match r.out with
  | Outcome.ret c => ⟨some c, r.ud, r.store⟩
  | Outcome.endConv => ⟨none, r.ud, r.store⟩
  | Outcome.raised => ⟨sys.conv, r.ud, r.store⟩

def liftAm (st : LedgerState) (r : AmountRes) : HandlerRes := ⟨r.ud, st, r.replies, r.out⟩

/-- Process one inbound message for user `uid`, with the storage
available iff `avail`. Returns the new system state and the replies
sent. -/
def step (avail : Bool) (uid : Nat) (m : Msg) (sys : Sys) : Sys × List String :=
  match m with
  | Msg.startCmd => (⟨some ConvState.AMOUNT, sys.ud, sys.store⟩, ["How much did you spend? (e.g., 12.50)"])
  | Msg.undoCmd =>
    let r := undo avail uid sys.store
    (⟨sys.conv, sys.ud, r.1⟩, r.2.1)
  | Msg.restartCmd =>
    let r := restart avail uid sys.store
    (⟨sys.conv, sys.ud, r.1⟩, r.2.1)
  | Msg.needsCmd => (sys, (summaryHandler avail uid "needs" sys.store).1)
  | Msg.wantsCmd => (sys, (summaryHandler avail uid "wants" sys.store).1)
  | Msg.text s =>
    match sys.conv with
    | none => (sys, [MENU_TEXT])
    | some ConvState.AMOUNT =>
      let r := get_amount s sys.ud
      (applyHandler sys (liftAm sys.store r), r.replies)
    | some ConvState.CATEGORY =>
      let r := get_category s sys.ud
      (applyHandler sys (liftAm sys.store r), r.replies)
    | some ConvState.SUBCATEGORY =>
      let r := get_subcategory avail uid s sys.ud sys.store
      (applyHandler sys r, r.replies)
    | some ConvState.LABEL =>
      let r := get_label avail uid s sys.ud sys.store
      (applyHandler sys r, r.replies)

/-- Run a sequence of messages, each with its own storage availability. -/
def runTrace (uid : Nat) (ms : List (Bool × Msg)) (sys : Sys) : Sys :=
  ms.foldl (fun s am => (step am.1 uid am.2 s).1) sys

/-! ## The specification-side notion of standard decimal notation

Used to compare the amount grammar the spec promises with the grammar
`Decimal` actually accepts. Modelled from the wording of the spec:
"standard decimal notation" — an optional sign, then digits with at
most one decimal point and at least one digit; no whitespace, no
exponent, no underscores, no special values. -/

def isStandardDecimal (s : String) : Bool :=
  let r := (sgnSplit s.toList).2
  let ip := r.takeWhile isAsciiDigit
  let r1 := r.dropWhile isAsciiDigit
  if r1.isEmpty then !ip.isEmpty
  else if r1.head? = some '.' then r1.tail.all isAsciiDigit && !(ip.isEmpty && r1.tail.isEmpty)
  else false

/-! ## Invariants of the reachable states -/

/-- The per-row invariant the dialogue actually maintains for every row
it commits: a nonnegative stored amount (NUMERIC(10,2) rounding of a
positive parsed value), a category from the fixed enumeration, a
subcategory from the list of its category, and a label on every
miscellaneous row. -/
def EntryOK (e : Entry) : Prop :=
  0 ≤ e.amountCents ∧
  (e.category = "needs" ∨ e.category = "wants") ∧
  e.subcategory ∈ validSubcats e.category ∧
  (pyStartsWith e.subcategory "Misc" = true → e.label ≠ none)

def StoreOK (st : LedgerState) : Prop := ∀ e ∈ st.entries, EntryOK e

/-- What the handlers guarantee about the session fields themselves:
a stored category is `needs` or `wants`; a stored amount is a positive
finite value or the +Infinity that slipped past the sign test. -/
def UdOK (ud : UserData) : Prop :=
  (∀ c, ud.cat = some c → c = "needs" ∨ c = "wants") ∧
  (∀ d, ud.amount = some d →
    (∃ v, d = PyDec.finite v ∧ 0 < v.num) ∨ d = PyDec.infinity false)

/-- The inductive invariant of the whole system: every stored row is
well-formed, the session fields are well-formed, and in the LABEL state
the stored category/subcategory pair is a validated miscellaneous
choice. -/
def Inv (sys : Sys) : Prop :=
  StoreOK sys.store ∧ UdOK sys.ud ∧
  (sys.conv = some ConvState.LABEL →
    ∃ c sub, sys.ud.cat = some c ∧ sys.ud.subcat = some sub ∧
      sub ∈ validSubcats c ∧ pyStartsWith sub "Misc" = true)

/-! # Helper lemmas -/

theorem dropWhile_eq_nil_of_all {p : Char → Bool} {l : List Char}
    (h : ∀ c ∈ l, p c = true) : l.dropWhile p = [] := by
  induction l with
  | nil => rfl
  | cons c t ih =>
    rw [List.dropWhile_cons, if_pos (h c (by simp))]
    exact ih fun x hx => h x (by simp [hx])

theorem dropWhile_eq_self_of_none {p : Char → Bool} {l : List Char}
    (h : ∀ c ∈ l, p c = false) : l.dropWhile p = l := by
  cases l with
  | nil => rfl
  | cons c t => rw [List.dropWhile_cons, if_neg (by simp [h c (by simp)])]

theorem takeWhile_eq_self_of_all {p : Char → Bool} {l : List Char}
    (h : ∀ c ∈ l, p c = true) : l.takeWhile p = l := by
  induction l with
  | nil => rfl
  | cons c t ih =>
    rw [List.takeWhile_cons, if_pos (h c (by simp)), ih fun x hx => h x (by simp [hx])]

theorem stripWS_eq_self {cs : List Char} (h : ∀ c ∈ cs, isPyWS c = false) :
    stripWS cs = cs := by
  unfold stripWS
  rw [dropWhile_eq_self_of_none h,
    dropWhile_eq_self_of_none (fun c hc => h c (List.mem_reverse.mp hc)),
    List.reverse_reverse]

theorem stripWS_eq_nil_of_all {cs : List Char} (h : ∀ c ∈ cs, isPyWS c = true) :
    stripWS cs = [] := by
  unfold stripWS
  rw [dropWhile_eq_nil_of_all h]
  rfl

theorem divHalfEven_mul_cancel {d k : Int} (hd : 0 < d) : divHalfEven (d * k) d = k := by
  have h1 : (d * k).fdiv d = k := Int.mul_fdiv_cancel_left k (by omega)
  have h2 : d * k - k * d = 0 := by ring
  simp only [divHalfEven, h1, h2]
  rw [if_pos (by omega)]

theorem divHalfEven_nonneg {t d : Int} (ht : 0 ≤ t) (hd : 0 < d) : 0 ≤ divHalfEven t d := by
  have h1 : 0 ≤ t.fdiv d := Int.fdiv_nonneg ht (by omega)
  simp only [divHalfEven]
  repeat' split
  all_goals omega

theorem divHalfAway_nonneg {t d : Int} (ht : 0 ≤ t) (hd : 0 < d) : 0 ≤ divHalfAway t d := by
  have h1 : 0 ≤ t.fdiv d := Int.fdiv_nonneg ht (by omega)
  simp only [divHalfAway]
  repeat' split
  all_goals omega

theorem centsHalfAway_nonneg {v : DecVal} (h : 0 < v.num) : 0 ≤ centsHalfAway v :=
  divHalfAway_nonneg (mul_nonneg (by omega) (by norm_num)) (pow_pos (by norm_num) _)

/-- A storage-unavailable `save_expense` raises with everything
untouched, whatever the session holds. -/
theorem save_expense_false (uid : Nat) (ud : UserData) (st : LedgerState) :
    save_expense false uid ud st = ⟨ud, st, [], Outcome.raised⟩ := by
  rcases ud with ⟨a, c, sc, l⟩
  rcases c with _ | c <;> rcases sc with _ | sc <;> rcases a with _ | (v | b | _) <;>
    simp [save_expense, dbInsertExpense]

/-! # Claim C4 -/

/-- Claim C4 counterexample. At a concrete commit with the storage
unavailable, the handler sends no failure message and does not destroy
the session: the conversation state and all accumulated fields
(including the just-stored subcategory) remain, contradicting the
claimed generic failure message and session destruction. -/
theorem commit_storage_failure_counterexample :
    (step false 7 (Msg.text "Food")
      ⟨some ConvState.SUBCATEGORY, ⟨some (PyDec.finite ⟨5, 0⟩), some "needs", none, none⟩,
       ⟨[], 0⟩⟩).2 = [] ∧
    (step false 7 (Msg.text "Food")
      ⟨some ConvState.SUBCATEGORY, ⟨some (PyDec.finite ⟨5, 0⟩), some "needs", none, none⟩,
       ⟨[], 0⟩⟩).1 =
      ⟨some ConvState.SUBCATEGORY, ⟨some (PyDec.finite ⟨5, 0⟩), some "needs", some "Food", none⟩,
       ⟨[], 0⟩⟩ ∧
    (⟨some (PyDec.finite ⟨5, 0⟩), some "needs", some "Food", none⟩ : UserData) ≠ emptyUD := by
  decide

/-- Claim C4 (amended): when the ledger insert fails at commit, the
exception propagates out of `save_expense`: nothing is inserted (no
partial write), no message is emitted, there is no retry, and the
session is NOT destroyed — the accumulated fields survive and the
conversation state is left unchanged by the framework. In the LABEL
state this means the whole step keeps the conversation in LABEL with
the just-stripped label stored and no reply. -/
theorem commit_storage_failure_behavior :
    (∀ (uid : Nat) (ud : UserData) (st : LedgerState),
      save_expense false uid ud st = ⟨ud, st, [], Outcome.raised⟩) ∧
    (∀ (uid : Nat) (s : String) (sys : Sys), sys.conv = some ConvState.LABEL →
      step false uid (Msg.text s) sys =
        (⟨some ConvState.LABEL, { sys.ud with label := some (pyStrip s) }, sys.store⟩, [])) := by
  refine ⟨save_expense_false, ?_⟩
  intro uid s sys hconv
  rcases sys with ⟨conv, ud, st⟩
  simp only at hconv
  subst hconv
  simp [step, get_label, save_expense_false, applyHandler]

/-- Witness for C4: a concrete failing commit from the LABEL state. -/
theorem commit_storage_failure_behavior_witness :
    step false 7 (Msg.text "coffee")
      ⟨some ConvState.LABEL,
       ⟨some (PyDec.finite ⟨5, 0⟩), some "needs", some "Misc Needs", none⟩, ⟨[], 0⟩⟩ =
      (⟨some ConvState.LABEL,
        ⟨some (PyDec.finite ⟨5, 0⟩), some "needs", some "Misc Needs", some "coffee"⟩, ⟨[], 0⟩⟩,
       []) := by
  rw [commit_storage_failure_behavior.2 7 "coffee" _ rfl]
  decide

/-! # Claim C7 -/

/-- Claim C7 counterexample. After the back token the previously chosen
category is still stored in the session (it is not cleared), contrary
to the claim. -/
theorem back_navigation_counterexample :
    (get_subcategory true 1 "⬅ Back"
      ⟨some (PyDec.finite ⟨5, 0⟩), some "needs", none, none⟩ ⟨[], 0⟩).ud.cat = some "needs" ∧
    some "needs" ≠ (none : Option String) := by
  decide

/-- Claim C7 (amended): from AwaitingSubcategory the back token
transitions the session to AwaitingCategory and persists nothing, but
the session fields are left exactly as they were: the previously chosen
category remains stored (to be overwritten by the next category choice)
and no subcategory had been stored. -/
theorem back_navigation_keeps_fields (avail : Bool) (uid : Nat) (s : String)
    (ud : UserData) (st : LedgerState) (c : String) (a : PyDec)
    (hc : ud.cat = some c) (ha : ud.amount = some a) (hs : pyStrip s = "⬅ Back") :
    get_subcategory avail uid s ud st =
      ⟨ud, st, ["Choose again: Needs or Wants?"], Outcome.ret ConvState.CATEGORY⟩ := by
  simp [get_subcategory, hc, ha, hs]

/-- Witness for C7 at a concrete session. -/
theorem back_navigation_keeps_fields_witness :
    get_subcategory true 1 "⬅ Back"
      ⟨some (PyDec.finite ⟨5, 0⟩), some "needs", none, none⟩ ⟨[], 0⟩ =
      ⟨⟨some (PyDec.finite ⟨5, 0⟩), some "needs", none, none⟩, ⟨[], 0⟩,
       ["Choose again: Needs or Wants?"], Outcome.ret ConvState.CATEGORY⟩ := by
  rw [back_navigation_keeps_fields true 1 "⬅ Back" _ _ "needs" (PyDec.finite ⟨5, 0⟩) rfl rfl
    (by decide)]

/-! # Claim C10 -/

/-- Claim C10: in the label state a whitespace-only message is accepted
and stripped to the empty string; the committed row stores that empty
string as its label (non-null), and the confirmation message omits the
parenthesized label suffix. -/
theorem whitespace_label_empty (uid : Nat) (ud : UserData) (st : LedgerState)
    (s c sub m : String) (v : DecVal)
    (hcat : ud.cat = some c) (hsub : ud.subcat = some sub)
    (hamt : ud.amount = some (PyDec.finite v))
    (hws : s.toList ≠ [] ∧ ∀ ch ∈ s.toList, isPyWS ch = true)
    (hfit : (centsHalfAway v).natAbs < 10 ^ 10)
    (hfmt : fmt_money v = some m) :
    get_label true uid s ud st =
      ⟨emptyUD,
       ⟨st.entries ++ [⟨st.nextId, uid, c, sub, centsHalfAway v, some ""⟩], st.nextId + 1⟩,
       ["Logged " ++ m ++ " to " ++ title c ++ " → " ++ sub ++ "."],
       Outcome.endConv⟩ := by
  have hstrip : pyStrip s = "" := by
    unfold pyStrip
    rw [stripWS_eq_nil_of_all hws.2]
  have hno : ¬ ((10000000000 : Nat) ≤ (centsHalfAway v).natAbs) := by omega
  simp [get_label, save_expense, dbInsertExpense, hcat, hsub, hamt, hstrip, hfmt, hno]

/-- Witness for C10: three spaces as the label message. -/
theorem whitespace_label_empty_witness :
    get_label true 1 "   "
      ⟨some (PyDec.finite ⟨125, 1⟩), some "needs", some "Misc Needs", none⟩ ⟨[], 0⟩ =
      ⟨emptyUD, ⟨[⟨0, 1, "needs", "Misc Needs", 1250, some ""⟩], 1⟩,
       ["Logged $12.50 to Needs → Misc Needs."], Outcome.endConv⟩ := by
  rw [whitespace_label_empty 1 _ _ "   " "needs" "Misc Needs" "$12.50" ⟨125, 1⟩ rfl rfl rfl
    ⟨by decide, by decide⟩ (by decide) (by decide)]
  decide

/-! # Claim C6 -/

/-- Claim C6: in AwaitingSubcategory, every valid choice whose name
starts with the miscellaneous marker transitions to the label state
(persisting nothing) and then exactly one more input — any text —
commits; every valid non-miscellaneous choice commits immediately and
terminates, with no label prompt in its reply. -/
theorem misc_label_branching (uid : Nat) (s : String) (ud : UserData) (st : LedgerState)
    (c m : String) (v : DecVal)
    (hc : ud.cat = some c) (ha : ud.amount = some (PyDec.finite v)) (hl : ud.label = none)
    (hnb : pyStrip s ≠ "⬅ Back")
    (hvalid : pyStrip s ∈ validSubcats c)
    (hfit : (centsHalfAway v).natAbs < 10 ^ 10)
    (hfmt : fmt_money v = some m) :
    (pyStartsWith (pyStrip s) "Misc" = true →
      get_subcategory true uid s ud st =
        ⟨{ ud with subcat := some (pyStrip s) }, st,
         ["Enter a short label for this Misc item:"], Outcome.ret ConvState.LABEL⟩ ∧
      ∀ t : String,
        get_label true uid t { ud with subcat := some (pyStrip s) } st =
          ⟨emptyUD,
           ⟨st.entries ++ [⟨st.nextId, uid, c, pyStrip s, centsHalfAway v, some (pyStrip t)⟩],
            st.nextId + 1⟩,
           ["Logged " ++ m ++ " to " ++ title c ++ " → " ++ pyStrip s ++
             (if pyStrip t = "" then "" else " (" ++ pyStrip t ++ ")") ++ "."],
           Outcome.endConv⟩) ∧
    (pyStartsWith (pyStrip s) "Misc" = false →
      get_subcategory true uid s ud st =
        ⟨emptyUD,
         ⟨st.entries ++ [⟨st.nextId, uid, c, pyStrip s, centsHalfAway v, none⟩], st.nextId + 1⟩,
         ["Logged " ++ m ++ " to " ++ title c ++ " → " ++ pyStrip s ++ "."],
         Outcome.endConv⟩) := by
  have hno : ¬ ((10000000000 : Nat) ≤ (centsHalfAway v).natAbs) := by omega
  constructor
  · intro hmisc
    constructor
    · simp [get_subcategory, hc, ha, hnb, hvalid, hmisc]
    · intro t
      simp [get_label, save_expense, dbInsertExpense, hc, ha, hfmt, hno]
  · intro hmisc
    simp [get_subcategory, save_expense, dbInsertExpense, hc, ha, hl, hnb, hvalid, hmisc,
      hfmt, hno]

/-- Witness for C6: "Misc Needs" then a label commit, and "Food"
committing immediately. -/
theorem misc_label_branching_witness :
    get_subcategory true 1 "Misc Needs"
      ⟨some (PyDec.finite ⟨125, 1⟩), some "needs", none, none⟩ ⟨[], 0⟩ =
      ⟨⟨some (PyDec.finite ⟨125, 1⟩), some "needs", some "Misc Needs", none⟩, ⟨[], 0⟩,
       ["Enter a short label for this Misc item:"], Outcome.ret ConvState.LABEL⟩ ∧
    get_label true 1 "book"
      ⟨some (PyDec.finite ⟨125, 1⟩), some "needs", some "Misc Needs", none⟩ ⟨[], 0⟩ =
      ⟨emptyUD, ⟨[⟨0, 1, "needs", "Misc Needs", 1250, some "book"⟩], 1⟩,
       ["Logged $12.50 to Needs → Misc Needs (book)."], Outcome.endConv⟩ ∧
    get_subcategory true 1 "Food"
      ⟨some (PyDec.finite ⟨125, 1⟩), some "needs", none, none⟩ ⟨[], 0⟩ =
      ⟨emptyUD, ⟨[⟨0, 1, "needs", "Food", 1250, none⟩], 1⟩,
       ["Logged $12.50 to Needs → Food."], Outcome.endConv⟩ := by
  have h1 := (misc_label_branching 1 "Misc Needs"
    ⟨some (PyDec.finite ⟨125, 1⟩), some "needs", none, none⟩ ⟨[], 0⟩ "needs" "$12.50" ⟨125, 1⟩
    rfl rfl rfl (by decide) (by decide) (by decide) (by decide)).1 (by decide)
  have h2 := (misc_label_branching 1 "Food"
    ⟨some (PyDec.finite ⟨125, 1⟩), some "needs", none, none⟩ ⟨[], 0⟩ "needs" "$12.50" ⟨125, 1⟩
    rfl rfl rfl (by decide) (by decide) (by decide) (by decide)).2 (by decide)
  exact ⟨h1.1.trans (by decide), (h1.2 "book").trans (by decide), h2.trans (by decide)⟩

/-! # Claim C1 -/

/-- Inversion of a successful insert: it appends one row with the next
SERIAL id and the NUMERIC(10,2)-rounded amount. -/
theorem dbInsertExpense_some {avail : Bool} {st st' : LedgerState} {uid : Nat}
    {cat subcat : String} {amt : DecVal} {label : Option String}
    (h : dbInsertExpense avail st uid cat subcat amt label = some st') :
    (centsHalfAway amt).natAbs < 10 ^ 10 ∧
    st' = ⟨st.entries ++ [⟨st.nextId, uid, cat, subcat, centsHalfAway amt, label⟩],
      st.nextId + 1⟩ := by
  unfold dbInsertExpense at h
  cases avail with
  | false => simp at h
  | true =>
    simp only [Bool.not_true, Bool.false_eq_true, if_false] at h
    split at h
    next hle => simp at h
    next hle => exact ⟨by omega, (Option.some.inj h).symm⟩

theorem foldl_pickStep_max {e : Entry} :
    ∀ l : List Entry, (∀ x ∈ l, x.id < e.id) →
      ∀ acc : Option Entry, (∀ a, acc = some a → a.id < e.id) →
        (l ++ [e]).foldl pickStep acc = some e := by
  intro l
  induction l with
  | nil =>
    intro _ acc hacc
    cases acc with
    | none => rfl
    | some a =>
      simp only [List.nil_append, List.foldl_cons, List.foldl_nil, pickStep]
      rw [if_pos (hacc a rfl)]
  | cons x t ih =>
    intro hl acc hacc
    simp only [List.cons_append, List.foldl_cons]
    refine ih (fun y hy => hl y (by simp [hy])) _ ?_
    intro a ha
    cases acc with
    | none =>
      simp only [pickStep] at ha
      cases ha
      exact hl x (by simp)
    | some b =>
      simp only [pickStep] at ha
      by_cases hbx : b.id < x.id
      · rw [if_pos hbx] at ha
        have hxa := Option.some.inj ha
        subst hxa
        exact hl x (by simp)
      · rw [if_neg hbx] at ha
        have hba := Option.some.inj ha
        subst hba
        exact hacc b rfl

theorem pickLatest_append_max {l : List Entry} {e : Entry}
    (h : ∀ x ∈ l, x.id < e.id) : pickLatest (l ++ [e]) = some e :=
  foldl_pickStep_max l h none (fun a ha => by simp at ha)

/-- Undo for a user with no rows: reports and changes nothing. -/
theorem undo_empty (uid : Nat) (st : LedgerState) (h : userEntries st uid = []) :
    undo true uid st = (st, ["Nothing to undo."], false) := by
  simp [undo, h, pickLatest]

/-- Undo on a store of the form base ++ mid ++ [e], where base holds no
rows of the user, mid only rows of the user with smaller ids, and e a
row of the user: exactly e is deleted and reported. -/
theorem undo_append (base mid : List Entry) (e : Entry) (nid : Nat) (uid : Nat)
    (hbase : base.filter (fun x => x.user_id == uid) = [])
    (hbid : ∀ x ∈ base, x.id ≠ e.id)
    (hmid : ∀ x ∈ mid, x.user_id = uid ∧ x.id < e.id)
    (heu : e.user_id = uid)
    (hfit : e.amountCents.natAbs < 10 ^ 28) :
    undo true uid ⟨base ++ mid ++ [e], nid⟩ =
      (⟨base ++ mid, nid⟩,
       ["Removed last entry: $" ++ centsRender e.amountCents ++ " from " ++
         title e.category ++ " → " ++ e.subcategory ++ "."], false) := by
  have hue : userEntries ⟨base ++ mid ++ [e], nid⟩ uid = mid ++ [e] := by
    unfold userEntries
    simp only
    rw [List.filter_append, List.filter_append, hbase,
      List.filter_eq_self.mpr (fun x hx => by simp [(hmid x hx).1]),
      List.filter_eq_self.mpr (fun x hx => by simp at hx; subst hx; simp [heu])]
    simp
  have hpick : pickLatest (mid ++ [e]) = some e :=
    pickLatest_append_max (fun x hx => (hmid x hx).2)
  have hdel : (base ++ mid ++ [e]).filter (fun x => !(x.id == e.id)) = base ++ mid := by
    rw [List.filter_append, List.filter_append,
      List.filter_eq_self.mpr (fun x hx => by simp [hbid x hx]),
      List.filter_eq_self.mpr (fun x hx => by simp [Nat.ne_of_lt (hmid x hx).2]),
      show [e].filter (fun x => !(x.id == e.id)) = [] from by simp]
    simp
  have hfmt : fmt_cents e.amountCents = some ("$" ++ centsRender e.amountCents) := by
    unfold fmt_cents
    rw [if_neg (by omega)]
  unfold undo
  simp only [Bool.not_true, Bool.false_eq_true, if_false]
  rw [hue, hpick]
  simp only [hfmt, hdel]
  have hstr : "Removed last entry: " ++ ("$" ++ centsRender e.amountCents) =
      "Removed last entry: $" ++ centsRender e.amountCents := by
    rw [← String.append_assoc]
    exact congrArg (fun z => z ++ centsRender e.amountCents) (by decide)
  rw [hstr]

/-- Claim C1: per-user LIFO undo. In any well-formed store where the
user has no rows yet, after inserting E1, E2, E3 in that order, the
first undo removes exactly E3 (the highest id for that user), the
second E2, the third E1, and a fourth — like any undo for a user with
no rows — reports "Nothing to undo." and leaves the store unchanged.
Rows of other users are untouched throughout. -/
theorem undo_lifo_order (st : LedgerState) (uid : Nat)
    (c1 s1 c2 s2 c3 s3 : String) (a1 a2 a3 : DecVal) (l1 l2 l3 : Option String)
    (hwf : ∀ e ∈ st.entries, e.id < st.nextId)
    (hempty : userEntries st uid = [])
    (f1 : (centsHalfAway a1).natAbs < 10 ^ 10)
    (f2 : (centsHalfAway a2).natAbs < 10 ^ 10)
    (f3 : (centsHalfAway a3).natAbs < 10 ^ 10) :
    (∀ stE : LedgerState, userEntries stE uid = [] →
      undo true uid stE = (stE, ["Nothing to undo."], false)) ∧
    (dbInsertExpense true st uid c1 s1 a1 l1 =
      some ⟨st.entries ++ [⟨st.nextId, uid, c1, s1, centsHalfAway a1, l1⟩], st.nextId + 1⟩ ∧
    dbInsertExpense true ⟨st.entries ++ [⟨st.nextId, uid, c1, s1, centsHalfAway a1, l1⟩],
        st.nextId + 1⟩ uid c2 s2 a2 l2 =
      some ⟨st.entries ++ [⟨st.nextId, uid, c1, s1, centsHalfAway a1, l1⟩,
        ⟨st.nextId + 1, uid, c2, s2, centsHalfAway a2, l2⟩], st.nextId + 2⟩ ∧
    dbInsertExpense true ⟨st.entries ++ [⟨st.nextId, uid, c1, s1, centsHalfAway a1, l1⟩,
        ⟨st.nextId + 1, uid, c2, s2, centsHalfAway a2, l2⟩], st.nextId + 2⟩ uid c3 s3 a3 l3 =
      some ⟨st.entries ++ [⟨st.nextId, uid, c1, s1, centsHalfAway a1, l1⟩,
        ⟨st.nextId + 1, uid, c2, s2, centsHalfAway a2, l2⟩] ++
        [⟨st.nextId + 2, uid, c3, s3, centsHalfAway a3, l3⟩], st.nextId + 3⟩ ∧
    undo true uid ⟨st.entries ++ [⟨st.nextId, uid, c1, s1, centsHalfAway a1, l1⟩,
        ⟨st.nextId + 1, uid, c2, s2, centsHalfAway a2, l2⟩] ++
        [⟨st.nextId + 2, uid, c3, s3, centsHalfAway a3, l3⟩], st.nextId + 3⟩ =
      (⟨st.entries ++ [⟨st.nextId, uid, c1, s1, centsHalfAway a1, l1⟩,
        ⟨st.nextId + 1, uid, c2, s2, centsHalfAway a2, l2⟩], st.nextId + 3⟩,
       ["Removed last entry: $" ++ centsRender (centsHalfAway a3) ++ " from " ++
         title c3 ++ " → " ++ s3 ++ "."], false) ∧
    undo true uid ⟨st.entries ++ [⟨st.nextId, uid, c1, s1, centsHalfAway a1, l1⟩,
        ⟨st.nextId + 1, uid, c2, s2, centsHalfAway a2, l2⟩], st.nextId + 3⟩ =
      (⟨st.entries ++ [⟨st.nextId, uid, c1, s1, centsHalfAway a1, l1⟩], st.nextId + 3⟩,
       ["Removed last entry: $" ++ centsRender (centsHalfAway a2) ++ " from " ++
         title c2 ++ " → " ++ s2 ++ "."], false) ∧
    undo true uid ⟨st.entries ++ [⟨st.nextId, uid, c1, s1, centsHalfAway a1, l1⟩],
        st.nextId + 3⟩ =
      (⟨st.entries, st.nextId + 3⟩,
       ["Removed last entry: $" ++ centsRender (centsHalfAway a1) ++ " from " ++
         title c1 ++ " → " ++ s1 ++ "."], false) ∧
    undo true uid ⟨st.entries, st.nextId + 3⟩ =
      (⟨st.entries, st.nextId + 3⟩, ["Nothing to undo."], false)) := by
  have hbase : st.entries.filter (fun x => x.user_id == uid) = [] := hempty
  have g1 : ¬ ((10000000000 : Nat) ≤ (centsHalfAway a1).natAbs) := by omega
  have g2 : ¬ ((10000000000 : Nat) ≤ (centsHalfAway a2).natAbs) := by omega
  have g3 : ¬ ((10000000000 : Nat) ≤ (centsHalfAway a3).natAbs) := by omega
  refine ⟨fun stE hE => undo_empty uid stE hE, ?_, ?_, ?_, ?_, ?_, ?_, ?_⟩
  · simp [dbInsertExpense, g1]
  · simp [dbInsertExpense, g2]
  · simp [dbInsertExpense, g3]
  · exact undo_append st.entries
      [⟨st.nextId, uid, c1, s1, centsHalfAway a1, l1⟩,
       ⟨st.nextId + 1, uid, c2, s2, centsHalfAway a2, l2⟩]
      ⟨st.nextId + 2, uid, c3, s3, centsHalfAway a3, l3⟩ (st.nextId + 3) uid hbase
      (fun x hx => by have := hwf x hx; show x.id ≠ st.nextId + 2; omega)
      (by
        intro x hx
        simp only [List.mem_cons, List.not_mem_nil, or_false] at hx
        rcases hx with rfl | rfl
        · exact ⟨rfl, by show st.nextId < st.nextId + 2; omega⟩
        · exact ⟨rfl, by show st.nextId + 1 < st.nextId + 2; omega⟩)
      rfl (by show (centsHalfAway a3).natAbs < 10 ^ 28; omega)
  · have hsh : (⟨st.entries ++ [⟨st.nextId, uid, c1, s1, centsHalfAway a1, l1⟩,
        ⟨st.nextId + 1, uid, c2, s2, centsHalfAway a2, l2⟩], st.nextId + 3⟩ : LedgerState) =
        ⟨st.entries ++ [⟨st.nextId, uid, c1, s1, centsHalfAway a1, l1⟩] ++
          [⟨st.nextId + 1, uid, c2, s2, centsHalfAway a2, l2⟩], st.nextId + 3⟩ := by
      simp
    rw [hsh]
    exact undo_append st.entries [⟨st.nextId, uid, c1, s1, centsHalfAway a1, l1⟩]
      ⟨st.nextId + 1, uid, c2, s2, centsHalfAway a2, l2⟩ (st.nextId + 3) uid hbase
      (fun x hx => by have := hwf x hx; show x.id ≠ st.nextId + 1; omega)
      (by
        intro x hx
        simp only [List.mem_cons, List.not_mem_nil, or_false] at hx
        rcases hx with rfl
        exact ⟨rfl, by show st.nextId < st.nextId + 1; omega⟩)
      rfl (by show (centsHalfAway a2).natAbs < 10 ^ 28; omega)
  · have hsh : (⟨st.entries ++ [⟨st.nextId, uid, c1, s1, centsHalfAway a1, l1⟩],
        st.nextId + 3⟩ : LedgerState) =
        ⟨st.entries ++ [] ++ [⟨st.nextId, uid, c1, s1, centsHalfAway a1, l1⟩],
          st.nextId + 3⟩ := by
      simp
    rw [hsh]
    rw [undo_append st.entries [] ⟨st.nextId, uid, c1, s1, centsHalfAway a1, l1⟩
      (st.nextId + 3) uid hbase
      (fun x hx => by have := hwf x hx; show x.id ≠ st.nextId; omega)
      (by intro x hx; simp at hx)
      rfl (by show (centsHalfAway a1).natAbs < 10 ^ 28; omega)]
    simp
  · exact undo_empty uid _ hempty

/-- Witness for C1: a store holding one row of another user, then three
inserts for user 1 and four undos. -/
theorem undo_lifo_order_witness :
    dbInsertExpense true ⟨[⟨0, 9, "wants", "Alcohol", 300, none⟩], 1⟩ 1 "needs" "Food"
      ⟨10, 0⟩ none =
      some ⟨[⟨0, 9, "wants", "Alcohol", 300, none⟩] ++ [⟨1, 1, "needs", "Food", 1000, none⟩],
        2⟩ ∧
    dbInsertExpense true ⟨[⟨0, 9, "wants", "Alcohol", 300, none⟩] ++
        [⟨1, 1, "needs", "Food", 1000, none⟩], 2⟩ 1 "needs" "Transport" ⟨55, 1⟩ none =
      some ⟨[⟨0, 9, "wants", "Alcohol", 300, none⟩] ++ [⟨1, 1, "needs", "Food", 1000, none⟩,
        ⟨2, 1, "needs", "Transport", 550, none⟩], 3⟩ ∧
    dbInsertExpense true ⟨[⟨0, 9, "wants", "Alcohol", 300, none⟩] ++
        [⟨1, 1, "needs", "Food", 1000, none⟩, ⟨2, 1, "needs", "Transport", 550, none⟩], 3⟩ 1
        "wants" "Dates" ⟨7, 0⟩ none =
      some ⟨[⟨0, 9, "wants", "Alcohol", 300, none⟩] ++ [⟨1, 1, "needs", "Food", 1000, none⟩,
        ⟨2, 1, "needs", "Transport", 550, none⟩] ++ [⟨3, 1, "wants", "Dates", 700, none⟩], 4⟩ ∧
    undo true 1 ⟨[⟨0, 9, "wants", "Alcohol", 300, none⟩] ++
        [⟨1, 1, "needs", "Food", 1000, none⟩, ⟨2, 1, "needs", "Transport", 550, none⟩] ++
        [⟨3, 1, "wants", "Dates", 700, none⟩], 4⟩ =
      (⟨[⟨0, 9, "wants", "Alcohol", 300, none⟩] ++ [⟨1, 1, "needs", "Food", 1000, none⟩,
        ⟨2, 1, "needs", "Transport", 550, none⟩], 4⟩,
       ["Removed last entry: $7.00 from Wants → Dates."], false) ∧
    undo true 1 ⟨[⟨0, 9, "wants", "Alcohol", 300, none⟩] ++
        [⟨1, 1, "needs", "Food", 1000, none⟩, ⟨2, 1, "needs", "Transport", 550, none⟩], 4⟩ =
      (⟨[⟨0, 9, "wants", "Alcohol", 300, none⟩] ++ [⟨1, 1, "needs", "Food", 1000, none⟩], 4⟩,
       ["Removed last entry: $5.50 from Needs → Transport."], false) ∧
    undo true 1 ⟨[⟨0, 9, "wants", "Alcohol", 300, none⟩] ++
        [⟨1, 1, "needs", "Food", 1000, none⟩], 4⟩ =
      (⟨[⟨0, 9, "wants", "Alcohol", 300, none⟩], 4⟩,
       ["Removed last entry: $10.00 from Needs → Food."], false) ∧
    undo true 1 ⟨[⟨0, 9, "wants", "Alcohol", 300, none⟩], 4⟩ =
      (⟨[⟨0, 9, "wants", "Alcohol", 300, none⟩], 4⟩, ["Nothing to undo."], false) :=
  (undo_lifo_order ⟨[⟨0, 9, "wants", "Alcohol", 300, none⟩], 1⟩ 1 "needs" "Food" "needs"
    "Transport" "wants" "Dates" ⟨10, 0⟩ ⟨55, 1⟩ ⟨7, 0⟩ none none none
    (by decide) (by decide) (by decide) (by decide) (by decide)).2

/-! # Claims C2 and C9 -/

theorem sum_split (f : Entry → Int) (p : Entry → Bool) (l : List Entry) :
    ((l.filter p).map f).sum + ((l.filter (fun x => !p x)).map f).sum = (l.map f).sum := by
  induction l with
  | nil => rfl
  | cons x t ih =>
    by_cases hp : p x = true
    · simp only [List.filter_cons, hp, if_true, Bool.not_true, Bool.false_eq_true, if_false,
        List.map_cons, List.sum_cons]
      omega
    · rw [Bool.not_eq_true] at hp
      simp only [List.filter_cons, hp, Bool.false_eq_true, if_false, Bool.not_false, if_true,
        List.map_cons, List.sum_cons]
      omega

/-- Summing group sums over a duplicate-free cover of the subcategories
equals summing everything: the grand total of a GROUP BY result is the
total over all matching rows. -/
theorem sum_groups (f : Entry → Int) :
    ∀ (subs : List String) (l : List Entry), subs.Nodup →
      (∀ e ∈ l, e.subcategory ∈ subs) →
      (subs.map (fun sb => ((l.filter (fun x => x.subcategory == sb)).map f).sum)).sum =
        (l.map f).sum := by
  intro subs
  induction subs with
  | nil =>
    intro l _ hl
    cases l with
    | nil => rfl
    | cons x t => exact absurd (hl x (by simp)) (by simp)
  | cons sb rest ih =>
    intro l hnd hl
    simp only [List.map_cons, List.sum_cons]
    have hrest : ∀ s2 ∈ rest,
        ((l.filter (fun x => x.subcategory == s2)).map f).sum =
        (((l.filter (fun x => !(x.subcategory == sb))).filter
          (fun x => x.subcategory == s2)).map f).sum := by
      intro s2 hs2
      have hne : s2 ≠ sb := by
        intro hcon
        subst hcon
        exact (List.nodup_cons.mp hnd).1 hs2
      rw [List.filter_filter]
      have hfc : l.filter (fun x => x.subcategory == s2) =
          l.filter (fun a => (a.subcategory == s2) && !(a.subcategory == sb)) := by
        apply List.filter_congr
        intro x hx
        by_cases hxs : x.subcategory = s2
        · simp [hxs, hne]
        · simp [hxs]
      rw [hfc]
    rw [List.map_congr_left hrest,
      ih (l.filter (fun x => !(x.subcategory == sb))) (List.nodup_cons.mp hnd).2
        (fun x hx => by
          obtain ⟨hxl, hxsb⟩ := List.mem_filter.mp hx
          have hmem := hl x hxl
          simp only [Bool.not_eq_eq_eq_not, Bool.not_true, beq_eq_false_iff_ne] at hxsb
          rcases List.mem_cons.mp hmem with hc | hc
          · exact absurd hc hxsb
          · exact hc)]
    exact sum_split f (fun x => x.subcategory == sb) l

/-- Claim C2: the summary query groups exactly the rows of the given
user and category: a pair (sub, q) is listed iff the user has a
matching row with that subcategory (no zero-filling) and q is the exact
group sum; each subcategory is listed once; the sum of the listed sums
equals the exact total over all matching rows (which the handler
renders as the grand total); and the target constants render as $500.00
for needs and $300.00 for wants. -/
theorem summary_groups_exact :
    (∀ (st : LedgerState) (uid : Nat) (cat sub : String) (q : Int),
      (sub, q) ∈ summarize st uid cat ↔
        (sub ∈ (matchingEntries st uid cat).map (fun e => e.subcategory) ∧
         q = groupCents st uid cat sub)) ∧
    (∀ (st : LedgerState) (uid : Nat) (cat : String),
      ((summarize st uid cat).map Prod.fst).Nodup) ∧
    (∀ (st : LedgerState) (uid : Nat) (cat : String),
      ((summarize st uid cat).map Prod.snd).sum =
        ((matchingEntries st uid cat).map (fun e => e.amountCents)).sum) ∧
    (∀ (st : LedgerState) (uid : Nat) (cat : String),
      SummaryResultOK st uid cat (summarize st uid cat)) ∧
    fmt_money NEEDS_TARGET = some "$500.00" ∧
    fmt_money WANTS_TARGET = some "$300.00" := by
  have ha : ∀ (st : LedgerState) (uid : Nat) (cat sub : String) (q : Int),
      (sub, q) ∈ summarize st uid cat ↔
        (sub ∈ (matchingEntries st uid cat).map (fun e => e.subcategory) ∧
         q = groupCents st uid cat sub) := by
    intro st uid cat sub q
    unfold summarize
    rw [List.mem_map]
    constructor
    · rintro ⟨sb, hsb, heq⟩
      cases heq
      exact ⟨List.mem_dedup.mp hsb, rfl⟩
    · rintro ⟨hmem, rfl⟩
      exact ⟨sub, List.mem_dedup.mpr hmem, rfl⟩
  have hb : ∀ (st : LedgerState) (uid : Nat) (cat : String),
      ((summarize st uid cat).map Prod.fst).Nodup := by
    intro st uid cat
    unfold summarize
    rw [List.map_map]
    have hid : (Prod.fst ∘ fun sb => (sb, groupCents st uid cat sb)) = id := rfl
    rw [hid, List.map_id]
    exact List.nodup_dedup _
  refine ⟨ha, hb, ?_, ?_, by decide, by decide⟩
  · intro st uid cat
    unfold summarize
    rw [List.map_map]
    have heq : (Prod.snd ∘ fun sb => (sb, groupCents st uid cat sb)) =
        (fun sb => (((matchingEntries st uid cat).filter
          (fun x => x.subcategory == sb)).map (fun e => e.amountCents)).sum) := rfl
    rw [heq]
    exact sum_groups (fun e => e.amountCents) _ _ (List.nodup_dedup _)
      (fun e he => List.mem_dedup.mpr (List.mem_map_of_mem _ he))
  · intro st uid cat
    refine ⟨hb st uid cat, ?_, ?_⟩
    · rintro ⟨sub, q⟩ hp
      exact (ha st uid cat sub q).mp hp
    · intro sub hsub
      exact List.mem_map_of_mem Prod.fst ((ha st uid cat sub _).mpr ⟨hsub, rfl⟩)

/-- Witness for C2: the example of the claim — (needs, Food, 10.00),
(needs, Food, 5.50), (needs, Transport, 2.00) summarizes to Food $15.50
and Transport $2.00 with total $17.50 / $500.00. -/
theorem summary_groups_exact_witness :
    ("Food", (1550 : Int)) ∈ summarize ⟨[⟨0, 1, "needs", "Food", 1000, none⟩,
      ⟨1, 1, "needs", "Food", 550, none⟩, ⟨2, 1, "needs", "Transport", 200, none⟩], 3⟩
      1 "needs" ∧
    summaryHandler true 1 "needs" ⟨[⟨0, 1, "needs", "Food", 1000, none⟩,
      ⟨1, 1, "needs", "Food", 550, none⟩, ⟨2, 1, "needs", "Transport", 200, none⟩], 3⟩ =
      (["📊 Needs summary\n• Food: $15.50\n• Transport: $2.00\n\nTotal: $17.50 / $500.00"],
       false) := by
  constructor
  · exact (summary_groups_exact.1 ⟨[⟨0, 1, "needs", "Food", 1000, none⟩,
      ⟨1, 1, "needs", "Food", 550, none⟩, ⟨2, 1, "needs", "Transport", 200, none⟩], 3⟩
      1 "needs" "Food" 1550).mpr (by decide)
  · decide

/-- Claim C9 counterexample. The GROUP BY query has no ORDER BY, so the
SQL result-set contract (`SummaryResultOK`) admits two different row
orders for the very same store, user and category: the claimed
call-to-call order determinism is not guaranteed by the code. -/
theorem summary_order_counterexample :
    SummaryResultOK ⟨[⟨0, 1, "needs", "Food", 1000, none⟩,
      ⟨1, 1, "needs", "Transport", 200, none⟩], 2⟩ 1 "needs"
      [("Food", 1000), ("Transport", 200)] ∧
    SummaryResultOK ⟨[⟨0, 1, "needs", "Food", 1000, none⟩,
      ⟨1, 1, "needs", "Transport", 200, none⟩], 2⟩ 1 "needs"
      [("Transport", 200), ("Food", 1000)] ∧
    ([("Food", 1000), ("Transport", 200)] : List (String × Int)) ≠
      [("Transport", 200), ("Food", 1000)] := by
  decide

/-- Claim C9 (amended): what IS deterministic about two summarize calls
on the same store, user and category is the set of rows — any two valid
results are permutations of each other; the row order itself is not
fixed by the code (the query has no ORDER BY). -/
theorem summary_rows_permutation (st : LedgerState) (uid : Nat) (cat : String)
    (res1 res2 : List (String × Int))
    (h1 : SummaryResultOK st uid cat res1) (h2 : SummaryResultOK st uid cat res2) :
    res1.Perm res2 := by
  have key : ∀ ra rb : List (String × Int), SummaryResultOK st uid cat ra →
      SummaryResultOK st uid cat rb → ∀ p : String × Int, p ∈ ra → p ∈ rb := by
    intro ra rb hra hrb p hp
    obtain ⟨hm, hq⟩ := hra.2.1 p hp
    obtain ⟨p2, hp2mem, hfst⟩ := List.mem_map.mp (hrb.2.2 p.1 hm)
    obtain ⟨hm2, hq2⟩ := hrb.2.1 p2 hp2mem
    have hpp : p2 = p := by
      refine Prod.ext hfst ?_
      rw [hq2, hfst, ← hq]
    rwa [hpp] at hp2mem
  exact (List.perm_ext_iff_of_nodup (h1.1.of_map _) (h2.1.of_map _)).mpr
    (fun p => ⟨key res1 res2 h1 h2 p, key res2 res1 h2 h1 p⟩)

/-- Witness for C9 at the two concrete orderings. -/
theorem summary_rows_permutation_witness :
    List.Perm [(("Food" : String), (1000 : Int)), ("Transport", 200)]
      [("Transport", 200), ("Food", 1000)] :=
  summary_rows_permutation ⟨[⟨0, 1, "needs", "Food", 1000, none⟩,
    ⟨1, 1, "needs", "Transport", 200, none⟩], 2⟩ 1 "needs" _ _ (by decide) (by decide)

/-! # Claims C3 and C8: the amount grammar -/

theorem takeWhile_append_all {p : Char → Bool} {l1 : List Char} (l2 : List Char)
    (h1 : ∀ c ∈ l1, p c = true) :
    (l1 ++ l2).takeWhile p = l1 ++ l2.takeWhile p := by
  induction l1 with
  | nil => simp
  | cons c t ih =>
    rw [List.cons_append, List.takeWhile_cons, if_pos (h1 c (by simp)),
      ih (fun x hx => h1 x (by simp [hx])), List.cons_append]

theorem dropWhile_append_all {p : Char → Bool} {l1 : List Char} (l2 : List Char)
    (h1 : ∀ c ∈ l1, p c = true) :
    (l1 ++ l2).dropWhile p = l2.dropWhile p := by
  induction l1 with
  | nil => simp
  | cons c t ih =>
    rw [List.cons_append, List.dropWhile_cons, if_pos (h1 c (by simp)),
      ih (fun x hx => h1 x (by simp [hx]))]

theorem sgnSplit_shape (cs : List Char) :
    (sgnSplit cs).2 = cs ∨
    ∃ c0, (c0 = '-' ∨ c0 = '+') ∧ cs = c0 :: (sgnSplit cs).2 := by
  unfold sgnSplit
  by_cases h1 : cs.head? = some '-'
  · rw [if_pos h1]
    cases cs with
    | nil => simp at h1
    | cons c t =>
      simp only [List.head?_cons, Option.some.injEq] at h1
      subst h1
      exact Or.inr ⟨'-', Or.inl rfl, rfl⟩
  · rw [if_neg h1]
    by_cases h2 : cs.head? = some '+'
    · rw [if_pos h2]
      cases cs with
      | nil => simp at h2
      | cons c t =>
        simp only [List.head?_cons, Option.some.injEq] at h2
        subst h2
        exact Or.inr ⟨'+', Or.inr rfl, rfl⟩
    · rw [if_neg h2]
      exact Or.inl rfl

theorem std_char_not_ws_us {c : Char}
    (h : isAsciiDigit c = true ∨ c = '.' ∨ c = '+' ∨ c = '-') :
    isPyWS c = false ∧ (c.toNat != 95) = true := by
  rcases h with h | h | h | h
  · have h' : 48 ≤ c.toNat ∧ c.toNat ≤ 57 := by simpa [isAsciiDigit] using h
    constructor
    · simp only [isPyWS]
      simp only [Bool.or_eq_false_iff, decide_eq_false_iff_not]
      omega
    · simp only [bne_iff_ne, ne_eq]
      omega
  · subst h; decide
  · subst h; decide
  · subst h; decide

theorem asciiLower_of_digit_dot {c : Char} (h : isAsciiDigit c = true ∨ c = '.') :
    asciiLower c = c := by
  rcases h with h | h
  · have h' : 48 ≤ c.toNat ∧ c.toNat ≤ 57 := by simpa [isAsciiDigit] using h
    unfold asciiLower
    rw [if_neg]
    simp only [Bool.and_eq_true, decide_eq_true_eq, not_and]
    omega
  · subst h; decide

/-- Every string in standard decimal notation is accepted by the
`Decimal` constructor, with a finite value. -/
theorem standard_parses {s : String} (h : isStandardDecimal s = true) :
    ∃ v : DecVal, pyDecParse s = some (PyDec.finite v) := by
  simp only [isStandardDecimal] at h
  generalize hr : (sgnSplit s.toList).2 = r at h
  -- structure of the part after the sign
  have hstruct : (∀ c ∈ r, isAsciiDigit c = true ∨ c = '.') ∧
      (∃ ip t : List Char, (∀ c ∈ ip, isAsciiDigit c = true) ∧
        (∀ c ∈ t, isAsciiDigit c = true) ∧
        ((r = ip ∧ ip ≠ [] ∧ t = []) ∨ (r = ip ++ '.' :: t ∧ ¬(ip = [] ∧ t = [])))) := by
    by_cases he : (r.dropWhile isAsciiDigit).isEmpty = true
    · rw [if_pos he] at h
      have hr1 : r.dropWhile isAsciiDigit = [] := by
        simpa [List.isEmpty_iff] using he
      have hre : r = r.takeWhile isAsciiDigit := by
        conv_lhs => rw [← List.takeWhile_append_dropWhile isAsciiDigit r]
        rw [hr1, List.append_nil]
      have hdig : ∀ c ∈ r, isAsciiDigit c = true := by
        intro c hc
        rw [hre] at hc
        exact List.mem_takeWhile_imp hc
      have hne : r ≠ [] := by
        intro hcon
        rw [hcon] at h
        simp at h
      exact ⟨fun c hc => Or.inl (hdig c hc), r, [], hdig, by simp, Or.inl ⟨rfl, hne, rfl⟩⟩
    · rw [if_neg he] at h
      by_cases hdot : (r.dropWhile isAsciiDigit).head? = some '.'
      · rw [if_pos hdot] at h
        rcases hr1c : r.dropWhile isAsciiDigit with _ | ⟨c1, t⟩
        · rw [hr1c] at hdot
          simp at hdot
        · rw [hr1c] at hdot h
          simp only [List.head?_cons, Option.some.injEq] at hdot
          subst hdot
          simp only [List.tail_cons, Bool.and_eq_true, List.all_eq_true,
            Bool.not_eq_eq_eq_not, Bool.not_true] at h
          have hre : r = r.takeWhile isAsciiDigit ++ '.' :: t := by
            conv_lhs => rw [← List.takeWhile_append_dropWhile isAsciiDigit r]
            rw [hr1c]
          have hip : ∀ c ∈ r.takeWhile isAsciiDigit, isAsciiDigit c = true :=
            fun c hc => List.mem_takeWhile_imp hc
          have ht : ∀ c ∈ t, isAsciiDigit c = true := fun c hc => h.1 c hc
          refine ⟨?_, r.takeWhile isAsciiDigit, t, hip, ht, Or.inr ⟨hre, ?_⟩⟩
          · intro c hc
            rw [hre] at hc
            rcases List.mem_append.mp hc with hc1 | hc1
            · exact Or.inl (hip c hc1)
            · rcases List.mem_cons.mp hc1 with rfl | hc2
              · exact Or.inr rfl
              · exact Or.inl (ht c hc2)
          · intro ⟨hipe, hte⟩
            have := h.2
            rw [hipe, hte] at this
            simp at this
      · rw [if_neg hdot] at h
        simp at h
  obtain ⟨hdd, ip, t, hip, ht, hcases⟩ := hstruct
  -- every character of the string is a digit, a point, or a sign
  have hclass : ∀ c ∈ s.toList, isAsciiDigit c = true ∨ c = '.' ∨ c = '+' ∨ c = '-' := by
    intro c hc
    rcases sgnSplit_shape s.toList with hsh | ⟨c0, hc0, hsh⟩
    · rw [hr] at hsh
      rcases hdd c (hsh ▸ hc) with hd | hd
      · exact Or.inl hd
      · exact Or.inr (Or.inl hd)
    · rw [hr] at hsh
      rw [hsh] at hc
      rcases List.mem_cons.mp hc with rfl | hcr
      · rcases hc0 with rfl | rfl
        · exact Or.inr (Or.inr (Or.inr rfl))
        · exact Or.inr (Or.inr (Or.inl rfl))
      · rcases hdd c hcr with hd | hd
        · exact Or.inl hd
        · exact Or.inr (Or.inl hd)
  have hstrip : stripWS s.toList = s.toList :=
    stripWS_eq_self (fun c hc => (std_char_not_ws_us (hclass c hc)).1)
  have hfilter : (s.toList).filter (fun c => c.toNat != 95) = s.toList :=
    List.filter_eq_self.mpr (fun c hc => (std_char_not_ws_us (hclass c hc)).2)
  have hlow : r.map asciiLower = r := by
    rw [List.map_congr_left (fun c hc => asciiLower_of_digit_dot (hdd c hc))]
    exact List.map_id r
  have habsurd : ∀ c2 : Char, c2 ∈ r → isAsciiDigit c2 = false → ¬(c2 = '.') → False := by
    intro c2 hc2 hd hn
    rcases hdd c2 hc2 with hx | hx
    · rw [hx] at hd
      cases hd
    · exact hn hx
  have hinf1 : ¬(r = ['i', 'n', 'f']) := by
    intro hcon
    exact habsurd 'i' (by rw [hcon]; decide) (by decide) (by decide)
  have hinf2 : ¬(r = ['i', 'n', 'f', 'i', 'n', 'i', 't', 'y']) := by
    intro hcon
    exact habsurd 'i' (by rw [hcon]; decide) (by decide) (by decide)
  have hnan1 : ¬(r.take 3 = ['n', 'a', 'n']) := by
    intro hcon
    exact habsurd 'n' (List.take_subset 3 r (by rw [hcon]; decide)) (by decide) (by decide)
  have hnan2 : ¬(r.take 4 = ['s', 'n', 'a', 'n']) := by
    intro hcon
    exact habsurd 's' (List.take_subset 4 r (by rw [hcon]; decide)) (by decide) (by decide)
  -- the decimal-part parse
  have hpu : parseUDec r = some (digitsToNat (ip ++ t), t.length, []) := by
    rcases hcases with ⟨hre, hne, hte⟩ | ⟨hre, hg⟩
    · subst hre
      subst hte
      simp only [parseUDec]
      rw [takeWhile_eq_self_of_all hip, dropWhile_eq_nil_of_all hip]
      rw [if_neg (by simp)]
      rw [if_neg (by simpa [List.isEmpty_iff] using hne)]
      simp
    · subst hre
      have htw : List.takeWhile isAsciiDigit ('.' :: t) = [] := by
        rw [List.takeWhile_cons, if_neg (by decide)]
      have hdw : List.dropWhile isAsciiDigit ('.' :: t) = '.' :: t := by
        rw [List.dropWhile_cons, if_neg (by decide)]
      simp only [parseUDec]
      rw [takeWhile_append_all _ hip, dropWhile_append_all _ hip, htw, hdw,
        List.append_nil]
      rw [if_pos (show ('.' :: t).head? = some '.' from rfl)]
      simp only [List.tail_cons]
      rw [takeWhile_eq_self_of_all ht, dropWhile_eq_nil_of_all ht]
      rw [if_neg (by
        simp only [Bool.and_eq_true, List.isEmpty_iff, not_and]
        intro h1 h2
        exact hg ⟨h1, h2⟩)]
  -- assemble the whole parse
  simp only [pyDecParse, hstrip, hfilter, hr, hlow]
  rw [if_neg (by simp [hinf1, hinf2])]
  rw [if_neg (by simp [hnan1])]
  rw [if_neg (by simp [hnan2])]
  rw [hpu]
  simp only [parseExpOpt]
  rw [if_neg (by simp)]
  simp only [List.isEmpty_nil, if_true]
  exact ⟨_, rfl⟩

/-! # Claim C3 -/

/-- Claim C3 counterexample. The AwaitingAmount handler accepts the
string "1e2" — Python `Decimal` exponent notation, value 100 —
transitioning to AwaitingCategory and storing the amount, although
"1e2" is not standard decimal notation: acceptance is not limited to
standard decimal notation. -/
theorem amount_accepts_exponent_counterexample :
    (get_amount "1e2" emptyUD).out = Outcome.ret ConvState.CATEGORY ∧
    (get_amount "1e2" emptyUD).ud =
      { emptyUD with amount := some (PyDec.finite ⟨100, 0⟩) } ∧
    isStandardDecimal "1e2" = false := by
  decide

/-- Claim C3 (amended): the AwaitingAmount handler accepts s exactly
when s parses under the Python decimal numeric-string grammar (a
superset of standard decimal notation, also allowing surrounding
whitespace, underscores, exponents and signed special values) to a
finite value > 0 whose formatting fits the context precision; every
standard-decimal string does parse to a finite value; a rejection
leaves the machine in AwaitingAmount with no field stored; and
positivity of the parsed value is positivity of its numerator. -/
theorem amount_parsing_characterization :
    (∀ (s : String) (ud : UserData), (get_amount s ud).out = Outcome.ret ConvState.AMOUNT →
      (get_amount s ud).ud = ud) ∧
    (∀ (s : String) (ud : UserData), (get_amount s ud).out = Outcome.ret ConvState.CATEGORY →
      ∃ v : DecVal, pyDecParse s = some (PyDec.finite v) ∧ 0 < v.num ∧
        (get_amount s ud).ud = { ud with amount := some (PyDec.finite v) }) ∧
    (∀ (s : String) (ud : UserData) (v : DecVal), pyDecParse s = some (PyDec.finite v) →
      0 < v.num → (centsHalfEven v).natAbs < 10 ^ 28 →
      (get_amount s ud).out = Outcome.ret ConvState.CATEGORY) ∧
    (∀ s : String, isStandardDecimal s = true →
      ∃ v : DecVal, pyDecParse s = some (PyDec.finite v)) ∧
    (∀ v : DecVal, 0 < v.num ↔ 0 < v.toQ) := by
  refine ⟨?_, ?_, ?_, fun s hs => standard_parses hs, ?_⟩
  · intro s ud hout
    rcases hp : pyDecParse s with _ | (v | b | _)
    · simp [get_amount, hp]
    · by_cases hv : v.num ≤ 0
      · simp [get_amount, hp, hv]
      · rcases hfm : fmt_money v with _ | m
        · simp [get_amount, hp, hv, hfm] at hout
        · simp [get_amount, hp, hv, hfm] at hout
    · cases b
      · simp [get_amount, hp] at hout
      · simp [get_amount, hp]
    · simp [get_amount, hp]
  · intro s ud hout
    rcases hp : pyDecParse s with _ | (v | b | _)
    · simp [get_amount, hp] at hout
    · by_cases hv : v.num ≤ 0
      · simp [get_amount, hp, hv] at hout
      · rcases hfm : fmt_money v with _ | m
        · simp [get_amount, hp, hv, hfm] at hout
        · exact ⟨v, rfl, by omega, by simp [get_amount, hp, hv, hfm]⟩
    · cases b
      · simp [get_amount, hp] at hout
      · simp [get_amount, hp] at hout
    · simp [get_amount, hp] at hout
  · intro s ud v hp hpos hfit
    have hfm : fmt_money v = some ("$" ++ centsRender (centsHalfEven v)) := by
      unfold fmt_money
      rw [if_neg (by omega)]
    have hv : ¬(v.num ≤ 0) := by omega
    simp [get_amount, hp, hv, hfm]
  · intro v
    unfold DecVal.toQ
    rw [div_pos_iff_of_pos_right (by positivity)]
    exact Int.cast_pos.symm

/-- Witness for C3: the standard decimal "12.50" parses and is
accepted. -/
theorem amount_parsing_characterization_witness :
    (get_amount "12.50" emptyUD).out = Outcome.ret ConvState.CATEGORY ∧
    (∃ v : DecVal, pyDecParse "12.50" = some (PyDec.finite v)) := by
  constructor
  · exact amount_parsing_characterization.2.2.1 "12.50" emptyUD ⟨1250, 2⟩ (by decide)
      (by decide) (by decide)
  · exact amount_parsing_characterization.2.2.2.1 "12.50" (by decide)

/-! # Claim C8 -/

theorem pad2_length {m : Nat} (h : m < 100) : (pad2 m).length = 2 := by
  have hall : ∀ k : Fin 100, (pad2 k.1).length = 2 := by decide
  exact hall ⟨m, h⟩

/-- Claim C8 counterexample. The standard decimal string of a 1 with 26
zeros has value 10^26 > 0 and parses, but `_fmt_money` raises
(`quantize` would need a 29-digit coefficient, beyond the 28-digit
context precision): the round-trip does not hold for every valid
positive decimal string. -/
theorem amount_format_overflow_counterexample :
    isStandardDecimal "100000000000000000000000000" = true ∧
    pyDecParse "100000000000000000000000000" = some (PyDec.finite ⟨10 ^ 26, 0⟩) ∧
    ((0 : Int) < 10 ^ 26) ∧
    fmt_money ⟨10 ^ 26, 0⟩ = none := by
  decide

/-- Claim C8 (amended): every standard decimal string parses to a
finite value; and every parsed positive amount whose quantized
coefficient fits the 28-digit context precision formats as a dollar
string with exactly two fractional digits — exactly the half-even cent
rounding of the value — and when the value has at most two decimal
places the round-trip is exact (the rendered cents equal the value
times 100). -/
theorem amount_format_roundtrip :
    (∀ s : String, isStandardDecimal s = true →
      ∃ v : DecVal, pyDecParse s = some (PyDec.finite v)) ∧
    (∀ (s : String) (v : DecVal), pyDecParse s = some (PyDec.finite v) → 0 < v.num →
      (centsHalfEven v).natAbs < 10 ^ 28 →
      ∃ n : Nat, centsHalfEven v = (n : Int) ∧
        fmt_money v = some ("$" ++ toString (n / 100) ++ "." ++ pad2 (n % 100)) ∧
        (pad2 (n % 100)).length = 2 ∧
        (v.scale ≤ 2 → (n : ℚ) = v.toQ * 100)) := by
  refine ⟨fun s hs => standard_parses hs, ?_⟩
  intro s v hp hpos hfit
  have hnn : 0 ≤ centsHalfEven v :=
    divHalfEven_nonneg (mul_nonneg (by omega) (by norm_num)) (pow_pos (by norm_num) _)
  refine ⟨(centsHalfEven v).natAbs, (Int.natAbs_of_nonneg hnn).symm, ?_, ?_, ?_⟩
  · unfold fmt_money
    rw [if_neg (by omega)]
    unfold centsRender
    rw [if_neg (by omega)]
    simp only [String.empty_append, String.append_assoc]
  · exact pad2_length (Nat.mod_lt _ (by norm_num))
  · intro hsc
    obtain ⟨num, sc⟩ := v
    simp only at hsc hpos ⊢
    have hc : centsHalfEven ⟨num, sc⟩ = num * 10 ^ (2 - sc) := by
      unfold centsHalfEven
      interval_cases sc
      · rw [show num * 100 = 1 * (num * 100) by ring, show (10 : Int) ^ 0 = 1 by norm_num]
        rw [divHalfEven_mul_cancel (by norm_num)] <;> norm_num
      · rw [show num * 100 = 10 * (num * 10) by ring, show (10 : Int) ^ 1 = 10 by norm_num]
        rw [divHalfEven_mul_cancel (by norm_num)] <;> norm_num
      · rw [show num * 100 = 100 * num by ring, show (10 : Int) ^ 2 = 100 by norm_num]
        rw [divHalfEven_mul_cancel (by norm_num)] <;> norm_num
    rw [Int.cast_natAbs, abs_of_nonneg hnn, hc]
    unfold DecVal.toQ
    simp only
    interval_cases sc <;>
      (rw [div_mul_eq_mul_div, eq_div_iff (by norm_num)]
       push_cast
       ring)

/-- Witness for C8: "12.5" parses to 12.5 and formats as $12.50,
round-tripping exactly. -/
theorem amount_format_roundtrip_witness :
    (∃ v : DecVal, pyDecParse "12.5" = some (PyDec.finite v)) ∧
    (∃ n : Nat, centsHalfEven ⟨125, 1⟩ = (n : Int) ∧
      fmt_money ⟨125, 1⟩ = some ("$" ++ toString (n / 100) ++ "." ++ pad2 (n % 100)) ∧
      (pad2 (n % 100)).length = 2 ∧
      ((⟨125, 1⟩ : DecVal).scale ≤ 2 → (n : ℚ) = (⟨125, 1⟩ : DecVal).toQ * 100)) := by
  constructor
  · exact amount_format_roundtrip.1 "12.5" (by decide)
  · exact amount_format_roundtrip.2 "12.5" ⟨125, 1⟩ (by decide) (by decide) (by decide)

/-! # Claim C5 -/

theorem StoreOK_filter {st : LedgerState} (h : StoreOK st) (p : Entry → Bool) (n : Nat) :
    StoreOK ⟨st.entries.filter p, n⟩ :=
  fun e he => h e (List.mem_filter.mp he).1

theorem UdOK_empty : UdOK emptyUD := by
  constructor <;> intro x hx <;> simp [emptyUD] at hx

theorem UdOK_set_amount_fin {ud : UserData} (h : UdOK ud) {v : DecVal} (hv : 0 < v.num) :
    UdOK { ud with amount := some (PyDec.finite v) } :=
  ⟨fun c hc => h.1 c hc,
   fun d hd => Or.inl ⟨v, (Option.some.inj hd).symm, hv⟩⟩

theorem UdOK_set_amount_inf {ud : UserData} (h : UdOK ud) :
    UdOK { ud with amount := some (PyDec.infinity false) } :=
  ⟨fun c hc => h.1 c hc,
   fun d hd => Or.inr (Option.some.inj hd).symm⟩

theorem UdOK_set_cat {ud : UserData} (h : UdOK ud) {c : String}
    (hc : c = "needs" ∨ c = "wants") : UdOK { ud with cat := some c } :=
  ⟨fun c2 hc2 => (Option.some.inj hc2) ▸ hc,
   fun d hd => h.2 d hd⟩

theorem UdOK_set_subcat {ud : UserData} (h : UdOK ud) {sub : String} :
    UdOK { ud with subcat := some sub } :=
  ⟨fun c hc => h.1 c hc, fun d hd => h.2 d hd⟩

theorem UdOK_set_label {ud : UserData} (h : UdOK ud) {l : String} :
    UdOK { ud with label := some l } :=
  ⟨fun c hc => h.1 c hc, fun d hd => h.2 d hd⟩

/-- Full case analysis of `save_expense`: either it raises with the
session untouched, or it commits, clears the session and ends; the
store either stays or gains exactly the one row built from the session
fields. -/
theorem save_expense_cases (avail : Bool) (uid : Nat) (ud : UserData) (st : LedgerState) :
    ((save_expense avail uid ud st).out = Outcome.raised ∧
      (save_expense avail uid ud st).ud = ud ∨
     (save_expense avail uid ud st).out = Outcome.endConv ∧
      (save_expense avail uid ud st).ud = emptyUD) ∧
    ((save_expense avail uid ud st).store = st ∨
      ∃ cat sub v, ud.cat = some cat ∧ ud.subcat = some sub ∧
        ud.amount = some (PyDec.finite v) ∧
        (save_expense avail uid ud st).store =
          ⟨st.entries ++ [⟨st.nextId, uid, cat, sub, centsHalfAway v, ud.label⟩],
           st.nextId + 1⟩) := by
  rcases hcat : ud.cat with _ | cat
  · simp [save_expense, hcat]
  · rcases hsub : ud.subcat with _ | sub
    · simp [save_expense, hcat, hsub]
    · rcases hamt : ud.amount with _ | (v | b | _)
      · simp [save_expense, hcat, hsub, hamt]
      · rcases hins : dbInsertExpense avail st uid cat sub v ud.label with _ | st'
        · simp [save_expense, hcat, hsub, hamt, hins]
        · obtain ⟨hfit, rfl⟩ := dbInsertExpense_some hins
          rcases hfm : fmt_money v with _ | mm
          · refine ⟨Or.inl ⟨?_, ?_⟩, Or.inr ⟨cat, sub, v, rfl, rfl, rfl, ?_⟩⟩ <;>
              simp [save_expense, hcat, hsub, hamt, hins, hfm]
          · refine ⟨Or.inr ⟨?_, ?_⟩, Or.inr ⟨cat, sub, v, rfl, rfl, rfl, ?_⟩⟩ <;>
              simp [save_expense, hcat, hsub, hamt, hins, hfm]
      · simp [save_expense, hcat, hsub, hamt]
      · simp [save_expense, hcat, hsub, hamt]

theorem get_amount_cases (s : String) (ud : UserData) :
    ((get_amount s ud).ud = ud ∨
      (∃ v, 0 < v.num ∧ (get_amount s ud).ud = { ud with amount := some (PyDec.finite v) }) ∨
      (get_amount s ud).ud = { ud with amount := some (PyDec.infinity false) }) ∧
    ((get_amount s ud).out = Outcome.ret ConvState.AMOUNT ∨
      (get_amount s ud).out = Outcome.ret ConvState.CATEGORY ∨
      (get_amount s ud).out = Outcome.raised) := by
  rcases hp : pyDecParse s with _ | (v | b | _)
  · simp [get_amount, hp]
  · by_cases hv : v.num ≤ 0
    · simp [get_amount, hp, hv]
    · rcases hfm : fmt_money v with _ | mm
      · exact ⟨Or.inr (Or.inl ⟨v, by omega, by simp [get_amount, hp, hv, hfm]⟩),
          Or.inr (Or.inr (by simp [get_amount, hp, hv, hfm]))⟩
      · exact ⟨Or.inr (Or.inl ⟨v, by omega, by simp [get_amount, hp, hv, hfm]⟩),
          Or.inr (Or.inl (by simp [get_amount, hp, hv, hfm]))⟩
  · cases b
    · simp [get_amount, hp]
    · simp [get_amount, hp]
  · simp [get_amount, hp]

theorem get_category_cases (s : String) (ud : UserData) :
    ((get_category s ud).ud = ud ∨
      (get_category s ud).ud = { ud with cat := some "needs" } ∨
      (get_category s ud).ud = { ud with cat := some "wants" }) ∧
    ((get_category s ud).out = Outcome.ret ConvState.CATEGORY ∨
      (get_category s ud).out = Outcome.ret ConvState.SUBCATEGORY) := by
  by_cases h1 : pyLower (pyStrip s) = "needs"
  · simp [get_category, h1]
  · by_cases h2 : pyLower (pyStrip s) = "wants"
    · simp [get_category, h1, h2]
    · simp [get_category, h1, h2]

/-- One dispatched message preserves the system invariant, whatever the
message and whether or not storage is available. -/
theorem step_preserves_inv (avail : Bool) (uid : Nat) (m : Msg) (sys : Sys)
    (h : Inv sys) : Inv (step avail uid m sys).1 := by
  obtain ⟨hst, hud, hlab⟩ := h
  rcases m with _ | _ | _ | _ | _ | s
  · -- /start
    exact ⟨hst, hud, by simp [step]⟩
  · -- /undo
    refine ⟨?_, hud, fun hcv => hlab hcv⟩
    show StoreOK (undo avail uid sys.store).1
    cases avail with
    | false => exact hst
    | true =>
      rcases hpl : pickLatest (userEntries sys.store uid) with _ | last
      · simpa [undo, hpl] using hst
      · rcases hfm : fmt_cents last.amountCents with _ | mm
        · simpa [undo, hpl, hfm] using StoreOK_filter hst _ _
        · simpa [undo, hpl, hfm] using StoreOK_filter hst _ _
  · -- /restart
    refine ⟨?_, hud, fun hcv => hlab hcv⟩
    show StoreOK (restart avail uid sys.store).1
    cases avail with
    | false => exact hst
    | true => simpa [restart] using StoreOK_filter hst _ _
  · exact ⟨hst, hud, hlab⟩
  · exact ⟨hst, hud, hlab⟩
  · -- free text
    rcases hcv : sys.conv with _ | cst
    · simp only [step, hcv]
      exact ⟨hst, hud, by simp [hcv]⟩
    cases cst with
    | AMOUNT =>
      simp only [step, hcv]
      obtain ⟨hudc, houtc⟩ := get_amount_cases s sys.ud
      have hudok : UdOK (get_amount s sys.ud).ud := by
        rcases hudc with h1 | ⟨v, hv, h1⟩ | h1 <;> rw [h1]
        · exact hud
        · exact UdOK_set_amount_fin hud hv
        · exact UdOK_set_amount_inf hud
      rcases houtc with h2 | h2 | h2 <;> simp only [applyHandler, liftAm, h2] <;>
        exact ⟨hst, hudok, by simp [hcv]⟩
    | CATEGORY =>
      simp only [step, hcv]
      obtain ⟨hudc, houtc⟩ := get_category_cases s sys.ud
      have hudok : UdOK (get_category s sys.ud).ud := by
        rcases hudc with h1 | h1 | h1 <;> rw [h1]
        · exact hud
        · exact UdOK_set_cat hud (Or.inl rfl)
        · exact UdOK_set_cat hud (Or.inr rfl)
      rcases houtc with h2 | h2 <;> simp only [applyHandler, liftAm, h2] <;>
        exact ⟨hst, hudok, by simp [hcv]⟩
    | SUBCATEGORY =>
      simp only [step, hcv]
      rcases hcat : sys.ud.cat with _ | cat
      · have hr : get_subcategory avail uid s sys.ud sys.store =
            ⟨sys.ud, sys.store, [], Outcome.raised⟩ := by
          simp [get_subcategory, hcat]
        rw [hr]
        exact ⟨hst, hud, by simp [applyHandler, hcv]⟩
      rcases hamt : sys.ud.amount with _ | am
      · have hr : get_subcategory avail uid s sys.ud sys.store =
            ⟨sys.ud, sys.store, [], Outcome.raised⟩ := by
          simp [get_subcategory, hcat, hamt]
        rw [hr]
        exact ⟨hst, hud, by simp [applyHandler, hcv]⟩
      by_cases hback : pyStrip s = "⬅ Back"
      · have hr : get_subcategory avail uid s sys.ud sys.store =
            ⟨sys.ud, sys.store, ["Choose again: Needs or Wants?"],
             Outcome.ret ConvState.CATEGORY⟩ := by
          simp [get_subcategory, hcat, hamt, hback]
        rw [hr]
        exact ⟨hst, hud, by simp [applyHandler]⟩
      by_cases hval : pyStrip s ∈ validSubcats cat
      · by_cases hmisc : pyStartsWith (pyStrip s) "Misc" = true
        · have hr : get_subcategory avail uid s sys.ud sys.store =
              ⟨{ sys.ud with subcat := some (pyStrip s) }, sys.store,
               ["Enter a short label for this Misc item:"], Outcome.ret ConvState.LABEL⟩ := by
            simp [get_subcategory, hcat, hamt, hback, hval, hmisc]
          rw [hr]
          refine ⟨hst, UdOK_set_subcat hud, ?_⟩
          intro _
          exact ⟨cat, pyStrip s, by simp [applyHandler, hcat], by simp [applyHandler], hval,
            hmisc⟩
        · -- immediate commit
          have hr : get_subcategory avail uid s sys.ud sys.store =
              ⟨(save_expense avail uid { sys.ud with subcat := some (pyStrip s) } sys.store).ud,
               (save_expense avail uid { sys.ud with subcat := some (pyStrip s) } sys.store).store,
               (save_expense avail uid { sys.ud with subcat := some (pyStrip s) } sys.store).replies,
               if (save_expense avail uid { sys.ud with subcat := some (pyStrip s) } sys.store).out =
                   Outcome.raised then Outcome.raised else Outcome.endConv⟩ := by
            simp [get_subcategory, hcat, hamt, hback, hval, hmisc]
          rw [hr]
          obtain ⟨houts, hsts⟩ :=
            save_expense_cases avail uid { sys.ud with subcat := some (pyStrip s) } sys.store
          have hstok : StoreOK
              (save_expense avail uid { sys.ud with subcat := some (pyStrip s) } sys.store).store := by
            rcases hsts with h1 | ⟨cat2, sub2, v2, hc2, hs2, ha2, h1⟩
            · rw [h1]
              exact hst
            · rw [h1]
              have hcat2 : cat2 = cat := by
                have : sys.ud.cat = some cat2 := hc2
                rw [hcat] at this
                exact (Option.some.inj this).symm
              have hsub2 : sub2 = pyStrip s := by
                have : some (pyStrip s) = some sub2 := hs2
                exact (Option.some.inj this).symm
              have hv2 : 0 < v2.num := by
                have ham2 : sys.ud.amount = some (PyDec.finite v2) := ha2
                rcases hud.2 (PyDec.finite v2) ham2 with ⟨v3, hv3, hp3⟩ | hcon
                · rw [PyDec.finite.inj hv3]
                  exact hp3
                · cases hcon
              intro e he
              rcases List.mem_append.mp he with he1 | he1
              · exact hst e he1
              · rcases List.mem_cons.mp he1 with rfl | he2
                · refine ⟨centsHalfAway_nonneg hv2, ?_, ?_, ?_⟩
                  · exact hud.1 cat2 hc2
                  · simp only
                    rw [hsub2, hcat2]
                    exact hval
                  · intro hm
                    simp only at hm
                    rw [hsub2] at hm
                    exact absurd hm (by simp [hmisc])
                · exact absurd he2 (List.not_mem_nil e)
          have hudok : UdOK
              (save_expense avail uid { sys.ud with subcat := some (pyStrip s) } sys.store).ud := by
            rcases houts with ⟨_, h1⟩ | ⟨_, h1⟩
            · rw [h1]
              exact UdOK_set_subcat hud
            · rw [h1]
              exact UdOK_empty
          rcases houts with ⟨h2, h3⟩ | ⟨h2, h3⟩
          · rw [h2]
            simp only [applyHandler, if_pos rfl]
            exact ⟨hstok, hudok, by simp [hcv]⟩
          · rw [h2]
            simp only [applyHandler]
            rw [if_neg (by simp)]
            exact ⟨hstok, hudok, by simp⟩
      · have hr : get_subcategory avail uid s sys.ud sys.store =
            ⟨sys.ud, sys.store, ["Please pick from the buttons."],
             Outcome.ret ConvState.SUBCATEGORY⟩ := by
          simp [get_subcategory, hcat, hamt, hback, hval]
        rw [hr]
        exact ⟨hst, hud, by simp [applyHandler]⟩
    | LABEL =>
      simp only [step, hcv]
      obtain ⟨c0, sub0, hc0, hsub0, hval0, hmisc0⟩ := hlab hcv
      have hr : get_label avail uid s sys.ud sys.store =
          ⟨(save_expense avail uid { sys.ud with label := some (pyStrip s) } sys.store).ud,
           (save_expense avail uid { sys.ud with label := some (pyStrip s) } sys.store).store,
           (save_expense avail uid { sys.ud with label := some (pyStrip s) } sys.store).replies,
           if (save_expense avail uid { sys.ud with label := some (pyStrip s) } sys.store).out =
               Outcome.raised then Outcome.raised else Outcome.endConv⟩ := by
        simp [get_label]
      rw [hr]
      obtain ⟨houts, hsts⟩ :=
        save_expense_cases avail uid { sys.ud with label := some (pyStrip s) } sys.store
      have hstok : StoreOK
          (save_expense avail uid { sys.ud with label := some (pyStrip s) } sys.store).store := by
        rcases hsts with h1 | ⟨cat2, sub2, v2, hc2, hs2, ha2, h1⟩
        · rw [h1]
          exact hst
        · rw [h1]
          have hcat2 : cat2 = c0 := by
            have hx : sys.ud.cat = some cat2 := hc2
            rw [hc0] at hx
            exact (Option.some.inj hx).symm
          have hsub2 : sub2 = sub0 := by
            have hx : sys.ud.subcat = some sub2 := hs2
            rw [hsub0] at hx
            exact (Option.some.inj hx).symm
          have hv2 : 0 < v2.num := by
            have ham2 : sys.ud.amount = some (PyDec.finite v2) := ha2
            rcases hud.2 (PyDec.finite v2) ham2 with ⟨v3, hv3, hp3⟩ | hcon
            · rw [PyDec.finite.inj hv3]
              exact hp3
            · cases hcon
          intro e he
          rcases List.mem_append.mp he with he1 | he1
          · exact hst e he1
          · rcases List.mem_cons.mp he1 with rfl | he2
            · refine ⟨centsHalfAway_nonneg hv2, ?_, ?_, ?_⟩
              · exact hud.1 cat2 hc2
              · simp only
                rw [hsub2, hcat2]
                exact hval0
              · intro _
                simp
            · exact absurd he2 (List.not_mem_nil e)
      have hudok : UdOK
          (save_expense avail uid { sys.ud with label := some (pyStrip s) } sys.store).ud := by
        rcases houts with ⟨_, h1⟩ | ⟨_, h1⟩
        · rw [h1]
          exact UdOK_set_label hud
        · rw [h1]
          exact UdOK_empty
      rcases houts with ⟨h2, h3⟩ | ⟨h2, h3⟩
      · rw [h2]
        simp only [applyHandler, if_pos rfl]
        refine ⟨hstok, hudok, ?_⟩
        intro _
        rw [h3]
        exact ⟨c0, sub0, by simp [hc0], by simp [hsub0], hval0, hmisc0⟩
      · rw [h2]
        simp only [applyHandler]
        rw [if_neg (by simp)]
        exact ⟨hstok, hudok, by simp⟩

theorem runTrace_preserves_inv (uid : Nat) (ms : List (Bool × Msg)) (sys : Sys)
    (h : Inv sys) : Inv (runTrace uid ms sys) := by
  induction ms generalizing sys with
  | nil => exact h
  | cons m rest ih => exact ih _ (step_preserves_inv m.1 uid m.2 sys h)

theorem Inv_initial : Inv initialSys :=
  ⟨fun e he => absurd he (List.not_mem_nil e), UdOK_empty, by simp [initialSys]⟩

/-- Claim C5 counterexample. A trace in which a Misc commit fails with
the storage unavailable, then the dialogue is restarted: the stale
label "coffee" sticks to the session and is attached to the next,
non-miscellaneous commit; and the committed amount 0.004, positive when
parsed, is stored as 0.00 by the NUMERIC(10,2) rounding. The single
resulting row has a label on a non-Misc subcategory and a stored amount
that is not > 0 — falsifying both the only-if direction of the
label rule and strict positivity of the stored amount. -/
theorem committed_entry_invariant_counterexample :
    (runTrace 1 [(true, Msg.startCmd), (true, Msg.text "5"), (true, Msg.text "needs"),
      (true, Msg.text "Misc Needs"), (false, Msg.text "coffee"),
      (true, Msg.startCmd), (true, Msg.text "0.004"), (true, Msg.text "needs"),
      (true, Msg.text "Food")] initialSys).store.entries =
      [⟨0, 1, "needs", "Food", 0, some "coffee"⟩] ∧
    pyStartsWith "Food" "Misc" = false ∧
    ¬((0 : Int) > 0) := by
  decide

/-- Claim C5 (amended): every row the state machine ever commits — from
the empty initial state, over any message trace, any user and any
pattern of storage availability — has a NONNEGATIVE stored amount (the
NUMERIC(10,2) rounding of a positive parsed value, which reaches 0 for
values below 0.005), a category from {needs, wants}, a subcategory from
the fixed list of its category, and a non-null label whenever the
subcategory is a miscellaneous bucket. The converse of the label rule
and strict positivity of the stored amount do not hold. -/
theorem committed_entry_invariant (uid : Nat) (tr : List (Bool × Msg)) (e : Entry)
    (he : e ∈ (runTrace uid tr initialSys).store.entries) :
    0 ≤ e.amountCents ∧
    (e.category = "needs" ∨ e.category = "wants") ∧
    e.subcategory ∈ validSubcats e.category ∧
    (pyStartsWith e.subcategory "Misc" = true → e.label ≠ none) :=
  (runTrace_preserves_inv uid tr initialSys Inv_initial).1 e he

/-- Witness for C5: the row committed by a plain successful dialogue. -/
theorem committed_entry_invariant_witness :
    0 ≤ (⟨0, 1, "needs", "Food", 500, none⟩ : Entry).amountCents ∧
    ((⟨0, 1, "needs", "Food", 500, none⟩ : Entry).category = "needs" ∨
      (⟨0, 1, "needs", "Food", 500, none⟩ : Entry).category = "wants") ∧
    (⟨0, 1, "needs", "Food", 500, none⟩ : Entry).subcategory ∈
      validSubcats (⟨0, 1, "needs", "Food", 500, none⟩ : Entry).category ∧
    (pyStartsWith (⟨0, 1, "needs", "Food", 500, none⟩ : Entry).subcategory "Misc" = true →
      (⟨0, 1, "needs", "Food", 500, none⟩ : Entry).label ≠ none) :=
  committed_entry_invariant 1 [(true, Msg.startCmd), (true, Msg.text "5"),
    (true, Msg.text "needs"), (true, Msg.text "Food")] ⟨0, 1, "needs", "Food", 500, none⟩
    (by decide)

end ExpenseBot
